import Mathlib

/-!
RC3 command-line configuration loader (`internal/conf/cli.go`)

A shallow embedding of `InitCLIConfig` and `GetCLIEnvVars`.

The Go function reads the process environment and at most one TOML file and
hands both to the koanf library; the embedding makes every input explicit in a
`World` and follows the library calls step by step:

* `os.Environ` / `os.Getenv`            : `Environ`, `LookupEnv`, `Getenv`
* `file.Provider` + `toml.Parser`       : `readConfigFile` (the parsed document is an input)
* `env.Provider(...).Read`              : `envFlatMap`, `Unflatten`, `envProviderRead`
* `maps.Merge`                          : `Merge`
* `Koanf.Unmarshal` (mapstructure, weakly typed input, tag `koanf`) :
  `findRaw`, `decodeBool`, `decodeString`, `decodeStruct`, `Unmarshal`

Strings are Lean strings, that is valid UTF-8 text. `strings.ToLower` and
`strings.EqualFold` handle ASCII in their own code and read Go's Unicode case
tables for the rest; those tables are a parameter, `CaseTables`, and every
theorem holds whatever they contain. `ToUpper` is applied to the field tags
only, which are ASCII.

What the embedding takes from the libraries:

* `env.Provider` keeps the entries of `os.Environ()` that start with the prefix,
  passes each name through the callback, drops a name the callback blanked,
  assigns `mp[key] = value` in order and unflattens the map on `__`;
* `maps.Unflatten` ranges over the flat map, whose order Go leaves open
  (`World.keyRank`), walking down the parts of each key;
* `Koanf.Load` returns the provider's or the parser's error unchanged and
  otherwise merges with `maps.Merge`;
* `Koanf.Unmarshal` decodes the whole map with mapstructure, `WeaklyTypedInput`
  set and tag name `koanf`; mapstructure looks a field up by its exact tag, then
  by `strings.EqualFold`, collects the errors of all fields, and allocates the
  struct behind a nil pointer.
-/

namespace RC3

/-! ## Go `strings` -/

/-- Go `strings.HasPrefix`. -/
def HasPrefix (s pre : String) : Bool := pre.data.isPrefixOf s.data

/-- Go `strings.TrimPrefix`. -/
def TrimPrefix (s pre : String) : String :=
  if HasPrefix s pre then String.mk (s.data.drop pre.data.length) else s

/-- Go `strings.ToUpper` on ASCII text; it is applied to the field tags only. -/
def ToUpper (s : String) : String := String.mk (s.data.map Char.toUpper)

/-- The part of Go's Unicode tables that `strings.ToLower` and
`strings.EqualFold` read for characters outside ASCII. -/
structure CaseTables where
  /-- `unicode.ToLower` on a character above `unicode.MaxASCII` (`CaseRanges`);
  `U+212A` goes to `k`. -/
  lower : Char → Char
  /-- For `lo < hi` with `hi` outside ASCII: whether `unicode.SimpleFold`,
  iterated from `lo`, reaches `hi` (`k` and `U+212A`, `s` and `U+017F`). -/
  sameOrbit : Char → Char → Bool

/-- Go `unicode.ToLower`: ASCII is handled in the code, the rest by the table. -/
def lowerRune (t : CaseTables) (c : Char) : Char :=
  if c.toNat ≤ 127 then Char.toLower c else t.lower c

/-- Go `strings.ToLower`: `unicode.ToLower` mapped over the characters. -/
def ToLower (t : CaseTables) (s : String) : String := String.mk (s.data.map (lowerRune t))

/-- One round of the loop of `strings.EqualFold`: equal characters match; of two
ASCII characters the smaller must be an upper-case letter and the larger its
lower case; otherwise the fold orbit of the smaller must reach the larger. -/
def foldRune (t : CaseTables) (a b : Char) : Bool :=
  if a = b then true
  else if a < b then
    (if b.toNat < 128 then decide ('A' ≤ a ∧ a ≤ 'Z' ∧ b.toNat = a.toNat + 32)
     else t.sameOrbit a b)
  else
    (if a.toNat < 128 then decide ('A' ≤ b ∧ b ≤ 'Z' ∧ a.toNat = b.toNat + 32)
     else t.sameOrbit b a)

/-- The loop of `strings.EqualFold`: character by character, both strings
ending together. -/
def equalFoldChars (t : CaseTables) : List Char → List Char → Bool
  | [], [] => true
  | a :: as, b :: bs => foldRune t a b && equalFoldChars t as bs
  | _, _ => false

/-- Go `strings.EqualFold`. -/
def EqualFold (t : CaseTables) (s u : String) : Bool := equalFoldChars t s.data u.data

/-- The elements of a path between slashes; `acc` is the current one in reverse. -/
def splitSlash : List Char → List Char → List (List Char)
  | [], acc => [acc.reverse]
  | c :: rest, acc =>
    if c = '/' then acc.reverse :: splitSlash rest [] else splitSlash rest (c :: acc)

/-- One element of the loop of `filepath.Clean`, on the elements kept so far
(last one first): an empty element and `.` are dropped, `..` removes the last
element when that is not `..` itself, is dropped at the root and is kept
otherwise; any other element is kept. -/
def cleanStep (rooted : Bool) (stack : List (List Char)) (elem : List Char) :
    List (List Char) :=
  if elem = [] ∨ elem = ['.'] then stack
  else if elem = ['.', '.'] then
    match stack with
    | top :: below =>
      if top = ['.', '.'] then (if rooted then stack else elem :: stack) else below
    | [] => if rooted then [] else [elem]
  else elem :: stack

/-- The elements joined by slashes. -/
def joinSlash : List (List Char) → List Char
  | [] => []
  | [e] => e
  | e :: rest => e ++ '/' :: joinSlash rest

/-- Go `filepath.Clean` on a Unix path. -/
def Clean (path : String) : String :=
  if path = "" then "."
  else
    let rooted := path.data.head? = some '/'
    let body := joinSlash ((splitSlash path.data []).foldl (cleanStep rooted) []).reverse
    if rooted then String.mk ('/' :: body)
    else if body = [] then "." else String.mk body

/-- Scanner behind `Split`: `pending` records an underscore read but not yet
emitted, `acc` is the current piece in reverse. Two consecutive underscores
close the piece, leftmost first and without overlap, as `strings.Split` does. -/
def splitAux : List Char → Bool → List Char → List (List Char)
  | [], false, acc => [acc.reverse]
  | [], true, acc => [('_' :: acc).reverse]
  | c :: rest, false, acc =>
    if c = '_' then splitAux rest true acc else splitAux rest false (c :: acc)
  | c :: rest, true, acc =>
    if c = '_' then acc.reverse :: splitAux rest false []
    else splitAux rest false (c :: '_' :: acc)

/-- Go `strings.Split(s, "__")`, the delimiter given to `env.Provider`. -/
def Split (s : String) : List String := (splitAux s.data false []).map String.mk

/-- Byte-wise lexicographic `≤` on strings, the order of Go's `<` on strings. -/
def leChars : List Char → List Char → Bool
  | [], _ => true
  | _ :: _, [] => false
  | a :: as, b :: bs => if a < b then true else if a = b then leChars as bs else false

/-- The order `sort.Strings` sorts by. -/
def strLE (a b : String) : Prop := leChars a.data b.data = true

instance strLE.decidable : DecidableRel strLE := fun a b =>
  inferInstanceAs (Decidable (leChars a.data b.data = true))

/-! ## Configuration values: Go's `map[string]interface{}` -/

mutual
/-- A value held in a koanf configuration map: what the TOML parser or the
environment provider puts behind `interface{}`. -/
inductive Value where
  /-- A Go `string`. -/
  | str (s : String)
  /-- A Go `bool`. -/
  | bool (b : Bool)
  /-- A Go `int64`. -/
  | int (i : Int)
  /-- A Go `float64`, given by the two observations decoding makes of it:
  whether it differs from zero, and its `strconv.FormatFloat(f, 'f', -1, 64)` text. -/
  | float (nonzero : Bool) (text : String)
  /-- A TOML date or time (`time.Time` and the local date/time structs). -/
  | time (text : String)
  /-- A TOML array, `[]interface{}`. -/
  | arr (items : Items)
  /-- A nested table, `map[string]interface{}`. -/
  | map (entries : ConfMap)
/-- The elements of a TOML array. -/
inductive Items where
  | nil
  | cons (head : Value) (tail : Items)
/-- A Go `map[string]interface{}` as an association list; the first entry of a
key is the one the map holds. -/
inductive ConfMap where
  | nil
  | cons (key : String) (val : Value) (rest : ConfMap)
end

/-- Go `m[k]` with the comma-ok result. -/
def ConfMap.lookup (k : String) : ConfMap → Option Value
  | .nil => none
  | .cons key val rest => if key = k then some val else ConfMap.lookup k rest

/-- Go `m[k] = v`. -/
def ConfMap.set (k : String) (v : Value) : ConfMap → ConfMap
  | .nil => .cons k v .nil
  | .cons key val rest =>
    if key = k then .cons k v rest else .cons key val (ConfMap.set k v rest)

/-- The distinct keys of a map. -/
def ConfMap.keys : ConfMap → List String
  | .nil => []
  | .cons key _ rest => key :: (ConfMap.keys rest).filter (fun k => decide (k ≠ key))

/-- Builds a map from a list of bindings by successive assignment. -/
def ConfMap.ofList : List (String × Value) → ConfMap
  | [] => .nil
  | (k, v) :: rest => ConfMap.set k v (ConfMap.ofList rest)

/-- Whether a value is a nested `map[string]interface{}`. -/
def Value.isMap : Value → Bool
  | .map _ => true
  | _ => false

/-! ## Errors and the outside world -/

/-- The Go `error` values `InitCLIConfig` can return. -/
inductive GoError where
  /-- The error of `os.ReadFile` on a path that does not exist. -/
  | notExist (path : String)
  /-- Any other error of reading the file or of parsing it as TOML. -/
  | load (msg : String)
  /-- A `mapstructure.Error`: the names of the fields that could not be decoded,
  in field order. -/
  | decode (fields : List String)
deriving DecidableEq, Repr

/-- Everything `InitCLIConfig` reads from outside. -/
structure World where
  /-- The process environment block, one `(NAME, value)` per `NAME=value` entry, in order. -/
  environ : List (String × String)
  /-- The result of `os.UserHomeDir()` (empty on error). -/
  homeDir : String
  /-- The file system as the loader sees it: `none` when nothing exists at the
  path, otherwise the outcome of reading the file and parsing it as TOML. -/
  fs : String → Option (Except GoError ConfMap)
  /-- The hard-coded fallback locations of `possibleConfigPaths`, from the home directory. -/
  fallbackPaths : String → List String
  /-- Go leaves the iteration order of a map unspecified: a `range` visits the
  keys by increasing rank, keys of equal rank in `strLE` order. -/
  keyRank : String → Nat
  /-- The Unicode case tables of the Go runtime. -/
  tables : CaseTables

/-- The order in which a `range` over a map visits two keys. -/
def keyLE (rank : String → Nat) (a b : String) : Prop :=
  rank a < rank b ∨ (rank a = rank b ∧ strLE a b)

instance keyLE.decidable (rank : String → Nat) : DecidableRel (keyLE rank) := fun a b =>
  inferInstanceAs (Decidable (rank a < rank b ∨ (rank a = rank b ∧ strLE a b)))

/-- The keys of a map in the order a Go `range` visits them. -/
def rangeKeys (rank : String → Nat) (m : ConfMap) : List String :=
  List.insertionSort (keyLE rank) m.keys

/-! ## Go `os` -/

/-- Go `os.Environ()` as `(NAME, value)` pairs: the runtime keeps the first entry
of each name and blanks later ones (`copyenv`). -/
def Environ : List (String × String) → List (String × String)
  | [] => []
  | e :: rest => e :: (Environ rest).filter (fun x => decide (x.1 ≠ e.1))

/-- Go `os.LookupEnv`. -/
def LookupEnv (w : World) (key : String) : Option String :=
  (w.environ.find? (fun e => decide (e.1 = key))).map (fun e => e.2)

/-- Go `os.Getenv`: the empty string when the variable is not set. -/
def Getenv (w : World) (key : String) : String := (LookupEnv w key).getD ""

/-! ## The schema: `type CLI struct` -/

/-- The configuration struct `CLI`. -/
structure CLI where
  Detail : Bool
  Format : String
  Host : String
  NoColor : Bool
  Token : String
deriving DecidableEq, Repr

/-- The fields of `CLI`. -/
inductive FieldId where
  | Detail
  | Format
  | Host
  | NoColor
  | Token
deriving DecidableEq, Repr

/-- The Go kind of a field. -/
inductive Kind where
  | bool
  | string
deriving DecidableEq, Repr

/-- The `koanf:"..."` tag of a field. -/
def FieldId.tag : FieldId → String
  | .Detail => "detail"
  | .Format => "format"
  | .Host => "host"
  | .NoColor => "no_color"
  | .Token => "token"

/-- The declared type of a field. -/
def FieldId.kind : FieldId → Kind
  | .Detail => .bool
  | .Format => .string
  | .Host => .string
  | .NoColor => .bool
  | .Token => .string

/-- The fields of `CLI` in declaration order: what `structs.Fields(CLI{})` lists
and the order in which mapstructure decodes them. -/
def cliFields : List FieldId := [.Detail, .Format, .Host, .NoColor, .Token]

/-- The content of one field. -/
inductive FieldValue where
  | bool (b : Bool)
  | string (s : String)
deriving DecidableEq, Repr

/-- Reads a field of a `CLI`. -/
def CLI.get (c : CLI) : FieldId → FieldValue
  | .Detail => .bool c.Detail
  | .Format => .string c.Format
  | .Host => .string c.Host
  | .NoColor => .bool c.NoColor
  | .Token => .string c.Token

/-- Assigns a field of a `CLI`; a value of the other kind is never assigned. -/
def CLI.set (c : CLI) : FieldId → FieldValue → CLI
  | .Detail, .bool b => { c with Detail := b }
  | .Format, .string s => { c with Format := s }
  | .Host, .string s => { c with Host := s }
  | .NoColor, .bool b => { c with NoColor := b }
  | .Token, .string s => { c with Token := s }
  | _, _ => c

/-- The zero value `CLI{}`. -/
def zeroCLI : CLI :=
  { Detail := false, Format := "", Host := "", NoColor := false, Token := "" }

/-- `DefaultCLIConfig` returns a pre-populated configuration struct. -/
def DefaultCLIConfig : CLI :=
  { zeroCLI with Host := "localhost:8080", Format := "pretty" }

/-! ## Finding the configuration file -/

/-- Modelled from the spec: `searchFilePaths` is not in the source file; by the
spec it returns the first candidate that exists on disk, or the empty string. -/
def searchFilePaths (w : World) (paths : List String) : String :=
  (paths.find? (fun p => (w.fs p).isSome)).getD ""

/-- Modelled from the spec: `possibleConfigPaths` is not in the source file; by
the spec it lists the explicit path first when it is not empty, then the fixed
fallback locations derived from the home directory. -/
def possibleConfigPaths (w : World) (homeDir flagPath : String) : List String :=
  (if flagPath = "" then [] else [flagPath]) ++ w.fallbackPaths homeDir

/-- Lines 53 to 61 of `InitCLIConfig`: the discovered path, replaced by
`RC3_CLI_CONFIG_PATH` when that variable is not empty. -/
def resolvePath (w : World) (flagPath : String) : String :=
  let path := searchFilePaths w (possibleConfigPaths w w.homeDir flagPath)
  let envPath := Getenv w "RC3_CLI_CONFIG_PATH"
  if envPath ≠ "" then envPath else path

/-! ## koanf: providers and merge -/

/-- `file.Provider(path).ReadBytes()` followed by `toml.Parser().Unmarshal`:
`file.Provider` keeps `filepath.Clean(path)`, reads the file at that path and
the error of a missing file names the cleaned path. -/
def readConfigFile (w : World) (path : String) : Except GoError ConfMap :=
  match w.fs (Clean path) with
  | none => .error (.notExist (Clean path))
  | some (.error err) => .error err
  | some (.ok mp) => .ok mp

/-- koanf `maps.Merge(a, b)`: merges `a` into `b`. A key of `a` whose value is a
map and which is a map in `b` too is merged recursively; any other key of `a`
overwrites. The entries of `a` are taken back to front: Go leaves the order
unspecified and, the keys of a map being distinct, the result does not depend
on it. -/
def Merge : ConfMap → ConfMap → ConfMap
  | .nil, b => b
  | .cons key (.map am) rest, b =>
    match (Merge rest b).lookup key with
    | some (.map bm) => (Merge rest b).set key (.map (Merge am bm))
    | _ => (Merge rest b).set key (.map am)
  | .cons key val rest, b => (Merge rest b).set key val
termination_by structural a => a

/-- The callback given to `env.Provider`: strip the prefix, lower-case the rest. -/
def envCallback (t : CaseTables) (s : String) : String :=
  ToLower t (TrimPrefix s "RC3_CLI_")

/-- Whether `env.Provider` keeps an entry of the environment: the entry
`NAME=value` starts with `RC3_CLI_`. -/
def scanned (e : String × String) : Bool := HasPrefix (e.1 ++ "=" ++ e.2) "RC3_CLI_"

/-- One round of the loop of `Env.Read`: `mp[key] = value`, unless the callback
blanked the key. -/
def envAssign (t : CaseTables) (mp : ConfMap) (e : String × String) : ConfMap :=
  if envCallback t e.1 = "" then mp else mp.set (envCallback t e.1) (.str e.2)

/-- The flat map `Env.Read` builds from the kept entries, in the order of `os.Environ()`. -/
def envFlatMap (t : CaseTables) (entries : List (String × String)) : ConfMap :=
  (entries.filter scanned).foldl (envAssign t) .nil

/-- The inner loop of `maps.Unflatten` for one key, split into `parts`: walk
down the parts but the last, creating a map where a part is missing and staying
in place where a part holds something that is not a map; then assign the last part. -/
def insertPath : List String → Value → ConfMap → ConfMap
  | [], _, m => m
  | [last], v, m => m.set last v
  | p :: rest, v, m =>
    match m.lookup p with
    | none => m.set p (.map (insertPath rest v .nil))
    | some (.map sub) => m.set p (.map (insertPath rest v sub))
    | some _ => insertPath rest v m

/-- One round of the outer loop of `maps.Unflatten`. -/
def unflattenStep (mp : ConfMap) (out : ConfMap) (k : String) : ConfMap :=
  match mp.lookup k with
  | some v => insertPath (Split k) v out
  | none => out

/-- koanf `maps.Unflatten(mp, "__")`. -/
def Unflatten (rank : String → Nat) (mp : ConfMap) : ConfMap :=
  (rangeKeys rank mp).foldl (unflattenStep mp) .nil

/-- `env.Provider("RC3_CLI_", "__", cb).Read()`; it never fails. -/
def envProviderRead (w : World) : ConfMap :=
  Unflatten w.keyRank (envFlatMap w.tables (Environ w.environ))

/-! ## koanf: `Unmarshal` through mapstructure -/

/-- Go `strconv.ParseBool`. -/
def ParseBool (s : String) : Option Bool :=
  if s = "1" ∨ s = "t" ∨ s = "T" ∨ s = "TRUE" ∨ s = "true" ∨ s = "True" then some true
  else if s = "0" ∨ s = "f" ∨ s = "F" ∨ s = "FALSE" ∨ s = "false" ∨ s = "False" then some false
  else none

/-- mapstructure `decodeBool` with `WeaklyTypedInput` (koanf's default
configuration); the error names the field. -/
def decodeBool (name : String) : Value → Except String Bool
  | .bool b => .ok b
  | .int i => .ok (decide (i ≠ 0))
  | .float nonzero _ => .ok nonzero
  | .str s =>
    match ParseBool s with
    | some b => .ok b
    | none => if s = "" then .ok false else .error name
  | _ => .error name

/-- mapstructure `decodeString` with `WeaklyTypedInput`; the error names the field. -/
def decodeString (name : String) : Value → Except String String
  | .str s => .ok s
  | .bool b => .ok (if b then "1" else "0")
  | .int i => .ok (toString i)
  | .float _ text => .ok text
  | _ => .error name

/-- Decodes a raw value for a field of the given kind. -/
def decodeValue (kind : Kind) (name : String) (raw : Value) : Except String FieldValue :=
  match kind with
  | .bool => (decodeBool name raw).map FieldValue.bool
  | .string => (decodeString name raw).map FieldValue.string

/-- The map entry mapstructure decodes into the field named `fieldName`: the
entry under exactly that key or else, ranging over the map, the first key
that `strings.EqualFold` matches. -/
def findRaw (t : CaseTables) (rank : String → Nat) (m : ConfMap) (fieldName : String) :
    Option Value :=
  match m.lookup fieldName with
  | some v => some v
  | none =>
    match (rangeKeys rank m).find? (fun mK => EqualFold t mK fieldName) with
    | some mK => m.lookup mK
    | none => none

/-- One field of `decodeStructFromMap`: a field without entry is left as it is;
an entry that does not decode adds an error and decoding goes on. -/
def decodeField (t : CaseTables) (rank : String → Nat) (m : ConfMap)
    (acc : CLI × List String) (f : FieldId) : CLI × List String :=
  match findRaw t rank m f.tag with
  | none => acc
  | some raw =>
    match decodeValue f.kind f.tag raw with
    | .ok v => (acc.1.set f v, acc.2)
    | .error e => (acc.1, acc.2 ++ [e])

/-- mapstructure `decodeStructFromMap` into a `CLI`: the struct after decoding
and the errors collected. -/
def decodeStruct (t : CaseTables) (rank : String → Nat) (m : ConfMap) (c : CLI) :
    CLI × List String :=
  cliFields.foldl (decodeField t rank m) (c, [])

/-- `configParser.Unmarshal("", &config)`: decodes the whole conf map into the
pointer `config`, allocating a zero `CLI` when it is nil (`decodePtr`). Returns
the pointer afterwards and the error. -/
def Unmarshal (t : CaseTables) (rank : String → Nat) (confMap : ConfMap)
    (config : Option CLI) : Option CLI × Option GoError :=
  match decodeStruct t rank confMap (config.getD zeroCLI) with
  | (c, []) => (some c, none)
  | (c, e :: errs) => (config.map (fun _ => c), some (.decode (e :: errs)))

/-! ## `InitCLIConfig` and `GetCLIEnvVars` -/

/-- `configParser.Load(file.Provider(path), toml.Parser())` on the conf map
`confMap`: the error of reading or parsing, unchanged, or the file's map merged in. -/
def loadFile (w : World) (path : String) (confMap : ConfMap) : Except GoError ConfMap :=
  match readConfigFile w path with
  | .error err => .error err
  | .ok mp => .ok (Merge mp confMap)

/-- `configParser.Load(env.Provider(...), nil)` on the conf map `confMap`; the
provider never fails and neither does the merge. -/
def loadEnv (w : World) (confMap : ConfMap) : Except GoError ConfMap :=
  .ok (Merge (envProviderRead w) confMap)

/-- A call of `InitCLIConfig`: the files it loaded and the pair it returned. -/
structure Run where
  loaded : List String
  config : Option CLI
  err : Option GoError

/-- `InitCLIConfig(flagPath, loadDefaults)` in world `w`, statement by statement. -/
def InitCLIConfigRun (w : World) (flagPath : String) (loadDefaults : Bool) : Run :=
  let config : Option CLI := if loadDefaults then some DefaultCLIConfig else none
  let path := resolvePath w flagPath
  let loaded := if path ≠ "" then [path] else []
  let configParser : ConfMap := .nil
  match (if path ≠ "" then loadFile w path configParser else .ok configParser) with
  | .error err => { loaded := loaded, config := none, err := some err }
  | .ok configParser =>
    match loadEnv w configParser with
    | .error err => { loaded := loaded, config := none, err := some err }
    | .ok configParser =>
      match Unmarshal w.tables w.keyRank configParser config with
      | (_, some err) => { loaded := loaded, config := none, err := some err }
      | (config, none) => { loaded := loaded, config := config, err := none }

/-- The pair `(*CLI, error)` that `InitCLIConfig` returns. -/
def InitCLIConfig (w : World) (flagPath : String) (loadDefaults : Bool) :
    Option CLI × Option GoError :=
  ((InitCLIConfigRun w flagPath loadDefaults).config,
   (InitCLIConfigRun w flagPath loadDefaults).err)

/-- Modelled from the spec: `getEnvVarsFromStruct` is not in the source file; by
the spec it builds, for each field, the given prefix followed by the field name
in upper case. -/
def getEnvVarsFromStruct (pre : String) (fields : List FieldId) : List String :=
  fields.map (fun f => pre ++ ToUpper f.tag)

/-- `GetCLIEnvVars`: the variable names of the fields of `CLI`, sorted by `sort.Strings`. -/
def GetCLIEnvVars : List String :=
  List.insertionSort strLE (getEnvVarsFromStruct "RC3_CLI_" cliFields)

/-- The environment variable of a field. -/
def FieldId.envVar (f : FieldId) : String := "RC3_CLI_" ++ ToUpper f.tag

/-! ## Notions used to state and prove the claims -/

/-- The value `Merge` stores under a key of `a` holding `val`, when the target
holds `old` there. -/
def mergeValue (val : Value) (old : Option Value) : Value :=
  match val, old with
  | .map am, some (.map bm) => .map (Merge am bm)
  | v, _ => v

/-- The entry of a merged map under one key, from the entries of the two maps. -/
def mergeAt (x : Option Value) (old : Option Value) : Option Value :=
  match x with
  | none => old
  | some val => some (mergeValue val old)

/-- All keys of the association list, repeated ones included. -/
def ConfMap.rawKeys : ConfMap → List String
  | .nil => []
  | .cons key _ rest => key :: ConfMap.rawKeys rest

/-- The text of an environment variable read as a value of the given kind: any
text for a string field, what `strconv.ParseBool` accepts for a boolean field. -/
def parseAs (kind : Kind) (v : String) : Option FieldValue :=
  match kind with
  | .string => some (.string v)
  | .bool => (ParseBool v).map FieldValue.bool

/-- A field content as a configuration value of the same Go type. -/
def FieldValue.toValue : FieldValue → Value
  | .bool b => .bool b
  | .string s => .str s

/-- The Go kind of a field content. -/
def FieldValue.kind : FieldValue → Kind
  | .bool _ => .bool
  | .string _ => .string

/-- The conf map of `configParser` after the two `Load` calls, or the error of
the first. -/
def confState (w : World) (path : String) : Except GoError ConfMap :=
  match (if path ≠ "" then (readConfigFile w path).map (fun mp => Merge mp .nil)
         else .ok .nil) with
  | .error err => .error err
  | .ok confMap => .ok (Merge (envProviderRead w) confMap)

/-- The value bound to a field: the entry of the conf map, after both loads,
that `Unmarshal` decodes into the field. -/
def boundValue (w : World) (flagPath : String) (k : FieldId) : Option Value :=
  match confState w (resolvePath w flagPath) with
  | .ok m => findRaw w.tables w.keyRank m k.tag
  | .error _ => none

/-- The values weakly typed decoding cannot convert to the given kind: tables,
arrays and dates for both kinds, and for a boolean a non-empty string that
`strconv.ParseBool` rejects. -/
def unconvertible : Kind → Value → Bool
  | _, .time _ => true
  | _, .arr _ => true
  | _, .map _ => true
  | .bool, .str s => (ParseBool s).isNone && decide (s ≠ "")
  | _, _ => false

/-- What `InitCLIConfig` returns once the path of the file is settled: lines 63
to 86 of the function. -/
def InitCLIConfigAt (w : World) (path : String) (loadDefaults : Bool) :
    Option CLI × Option GoError :=
  match confState w path with
  | .error err => (none, some err)
  | .ok confMap =>
    match decodeStruct w.tables w.keyRank confMap
      (if loadDefaults then DefaultCLIConfig else zeroCLI) with
    | (c, []) => (some c, none)
    | (_, e :: errs) => (none, some (.decode (e :: errs)))

/-! ## Concrete worlds -/

/-- The case tables cut down to the entries that meet an ASCII letter: `U+212A`
and `U+0130` lower to `k` and `i`; `k` folds with `U+212A` and `s` with
`U+017F`. Every other character outside ASCII is left without case. -/
def asciiTables : CaseTables :=
  { lower := fun c => if c = '\u212A' then 'k' else if c = '\u0130' then 'i' else c
    sameOrbit := fun lo hi =>
      ((lo = 'K' || lo = 'k') && hi = '\u212A') || ((lo = 'S' || lo = 's') && hi = '\u017F') }

/-- A world given by its environment and one optional configuration file; every
path that cleans to the same path names that file. The worlds built with it
below hold ASCII text only. -/
def mkWorld (environ : List (String × String)) (file : Option (String × ConfMap)) : World :=
  { environ := environ
    homeDir := "/home/user"
    fs := fun p =>
      match file with
      | some (path, mp) => if Clean p = Clean path then some (.ok mp) else none
      | none => none
    fallbackPaths := fun home => [home ++ "/.rc3.toml"]
    keyRank := fun _ => 0
    tables := asciiTables }

/-! ## Lemmas and theorems -/


theorem lookup_set_self (k : String) (v : Value) :
    ∀ m : ConfMap, (m.set k v).lookup k = some v
  | .nil => by simp [ConfMap.set, ConfMap.lookup]
  | .cons key val rest => by
    by_cases h : key = k
    · simp [ConfMap.set, ConfMap.lookup, h]
    · simp [ConfMap.set, ConfMap.lookup, h, lookup_set_self k v rest]

theorem lookup_set_ne (k : String) (v : Value) (q : String) (hq : q ≠ k) :
    ∀ m : ConfMap, (m.set k v).lookup q = m.lookup q
  | .nil => by simp [ConfMap.set, ConfMap.lookup, Ne.symm hq]
  | .cons key val rest => by
    by_cases h : key = k
    · subst h
      simp [ConfMap.set, ConfMap.lookup, Ne.symm hq]
    · by_cases h2 : key = q
      · subst h2
        simp [ConfMap.set, ConfMap.lookup, h]
      · simp [ConfMap.set, ConfMap.lookup, h, h2, lookup_set_ne k v q hq rest]

theorem mem_keys_iff (q : String) : ∀ m : ConfMap, q ∈ m.keys ↔ m.lookup q ≠ none
  | .nil => by simp [ConfMap.keys, ConfMap.lookup]
  | .cons key val rest => by
    by_cases h : key = q
    · simp [ConfMap.keys, ConfMap.lookup, h]
    · have ih := mem_keys_iff q rest
      simp [ConfMap.keys, ConfMap.lookup, h, List.mem_filter, ih, Ne.symm h]

theorem nodup_keys : ∀ m : ConfMap, m.keys.Nodup
  | .nil => by simp [ConfMap.keys]
  | .cons key val rest => by
    simp only [ConfMap.keys, List.nodup_cons]
    refine ⟨?_, (nodup_keys rest).filter _⟩
    simp [List.mem_filter]


theorem Merge_cons (key : String) (val : Value) (rest b : ConfMap) :
    Merge (.cons key val rest) b
      = (Merge rest b).set key (mergeValue val ((Merge rest b).lookup key)) := by
  cases val <;> simp only [Merge, mergeValue]
  case map am =>
    cases h : (Merge rest b).lookup key with
    | none => simp
    | some old => cases old <;> simp

theorem mergeValue_of_not_isMap (val : Value) (old : Option Value) (h : val.isMap = false) :
    mergeValue val old = val := by
  cases val <;> simp_all [mergeValue, Value.isMap]

theorem mergeValue_isMap (val : Value) (old : Option Value) :
    (mergeValue val old).isMap = val.isMap := by
  cases val <;> try rfl
  case map am =>
    cases old with
    | none => rfl
    | some o => cases o <;> rfl

theorem lookup_Merge_none (k : String) (b : ConfMap) :
    ∀ a : ConfMap, a.lookup k = none → (Merge a b).lookup k = b.lookup k
  | .nil, _ => by simp [Merge]
  | .cons key val rest, h => by
    rw [Merge_cons]
    by_cases hk : key = k
    · simp [ConfMap.lookup, hk] at h
    · simp only [ConfMap.lookup, hk, if_false] at h
      rw [lookup_set_ne key _ k (Ne.symm hk), lookup_Merge_none k b rest h]

theorem lookup_Merge_some (k : String) (b : ConfMap) (v : Value) :
    ∀ a : ConfMap, a.lookup k = some v →
      ∃ old, (Merge a b).lookup k = some (mergeValue v old)
  | .nil, h => by simp [ConfMap.lookup] at h
  | .cons key val rest, h => by
    rw [Merge_cons]
    by_cases hk : key = k
    · subst hk
      simp only [ConfMap.lookup, if_true, Option.some.injEq] at h
      subst h
      exact ⟨_, lookup_set_self _ _ _⟩
    · simp only [ConfMap.lookup, hk, if_false] at h
      rw [lookup_set_ne key _ k (Ne.symm hk)]
      exact lookup_Merge_some k b v rest h

theorem lookup_Merge_of_not_isMap (k : String) (a b : ConfMap) (v : Value)
    (h : a.lookup k = some v) (hv : v.isMap = false) : (Merge a b).lookup k = some v := by
  obtain ⟨old, ho⟩ := lookup_Merge_some k b v a h
  rw [ho, mergeValue_of_not_isMap v old hv]

theorem lookup_eq_none_of_not_mem_rawKeys (k : String) :
    ∀ m : ConfMap, k ∉ m.rawKeys → m.lookup k = none
  | .nil, _ => rfl
  | .cons key val rest, h => by
    simp only [ConfMap.rawKeys, List.mem_cons, not_or] at h
    simp [ConfMap.lookup, Ne.symm h.1, lookup_eq_none_of_not_mem_rawKeys k rest h.2]

theorem lookup_Merge (k : String) (b : ConfMap) :
    ∀ a : ConfMap, a.rawKeys.Nodup → (Merge a b).lookup k = mergeAt (a.lookup k) (b.lookup k)
  | .nil, _ => by simp [Merge, ConfMap.lookup, mergeAt]
  | .cons key val rest, h => by
    simp only [ConfMap.rawKeys, List.nodup_cons] at h
    rw [Merge_cons]
    by_cases hk : key = k
    · subst hk
      rw [lookup_set_self,
        lookup_Merge_none key b rest (lookup_eq_none_of_not_mem_rawKeys key rest h.1)]
      simp [ConfMap.lookup, mergeAt]
    · rw [lookup_set_ne key _ k (Ne.symm hk), lookup_Merge k b rest h.2]
      simp [ConfMap.lookup, hk]

theorem lookup_Merge_right_congr (k : String) (b1 b2 : ConfMap) (hb : b1.lookup k = b2.lookup k) :
    ∀ a : ConfMap, (Merge a b1).lookup k = (Merge a b2).lookup k
  | .nil => by simpa [Merge] using hb
  | .cons key val rest => by
    rw [Merge_cons, Merge_cons]
    by_cases hk : key = k
    · subst hk
      rw [lookup_set_self, lookup_set_self, lookup_Merge_right_congr key b1 b2 hb rest]
    · rw [lookup_set_ne key _ k (Ne.symm hk), lookup_set_ne key _ k (Ne.symm hk)]
      exact lookup_Merge_right_congr k b1 b2 hb rest

theorem lookup_Merge_ne_none (k : String) (a b : ConfMap)
    (h : (Merge a b).lookup k ≠ none) : a.lookup k ≠ none ∨ b.lookup k ≠ none := by
  by_cases ha : a.lookup k = none
  · right
    rwa [lookup_Merge_none k b a ha] at h
  · exact Or.inl ha

theorem leChars_total : ∀ a b : List Char, leChars a b = true ∨ leChars b a = true
  | [], _ => by simp [leChars]
  | _ :: _, [] => by simp [leChars]
  | a :: as, b :: bs => by
    rcases lt_trichotomy a b with h | h | h
    · simp [leChars, h]
    · subst h
      simpa [leChars] using leChars_total as bs
    · right
      simp [leChars, h]

theorem leChars_trans : ∀ a b c : List Char,
    leChars a b = true → leChars b c = true → leChars a c = true
  | [], _, _, _, _ => by simp [leChars]
  | _ :: _, [], _, h, _ => by simp [leChars] at h
  | _ :: _, _ :: _, [], _, h => by simp [leChars] at h
  | a :: as, b :: bs, c :: cs, h1, h2 => by
    simp only [leChars] at h1 h2 ⊢
    by_cases hab : a < b
    · by_cases hbc : b < c
      · simp [lt_trans hab hbc]
      · simp only [hbc, if_false] at h2
        by_cases hbc2 : b = c
        · subst hbc2
          simp [hab]
        · simp [hbc2] at h2
    · simp only [hab, if_false] at h1
      by_cases hab2 : a = b
      · subst hab2
        simp only [if_true] at h1
        by_cases hac : a < c
        · simp [hac]
        · simp only [hac, if_false] at h2 ⊢
          by_cases hac2 : a = c
          · subst hac2
            simp only [if_true] at h2 ⊢
            exact leChars_trans as bs cs h1 h2
          · simp [hac2] at h2
      · simp [hab2] at h1

theorem leChars_antisymm : ∀ a b : List Char,
    leChars a b = true → leChars b a = true → a = b
  | [], [], _, _ => rfl
  | [], _ :: _, _, h => by simp [leChars] at h
  | _ :: _, [], h, _ => by simp [leChars] at h
  | a :: as, b :: bs, h1, h2 => by
    simp only [leChars] at h1 h2
    rcases lt_trichotomy a b with h | h | h
    · have h3 : ¬ b < a := not_lt_of_lt h
      have h4 : b ≠ a := ne_of_gt h
      simp [h3, h4] at h2
    · subst h
      simp only [lt_irrefl, if_false, if_true] at h1 h2
      rw [leChars_antisymm as bs h1 h2]
    · have h3 : ¬ a < b := not_lt_of_lt h
      have h4 : a ≠ b := ne_of_gt h
      simp [h3, h4] at h1

theorem strLE_total (a b : String) : strLE a b ∨ strLE b a := leChars_total a.data b.data

theorem strLE_trans (a b c : String) (h1 : strLE a b) (h2 : strLE b c) : strLE a c :=
  leChars_trans a.data b.data c.data h1 h2

theorem strLE_antisymm (a b : String) (h1 : strLE a b) (h2 : strLE b a) : a = b :=
  String.ext (leChars_antisymm a.data b.data h1 h2)

theorem keyLE_total (rank : String → Nat) (a b : String) : keyLE rank a b ∨ keyLE rank b a := by
  unfold keyLE
  rcases lt_trichotomy (rank a) (rank b) with h | h | h
  · exact Or.inl (Or.inl h)
  · rcases strLE_total a b with h2 | h2
    · exact Or.inl (Or.inr ⟨h, h2⟩)
    · exact Or.inr (Or.inr ⟨h.symm, h2⟩)
  · exact Or.inr (Or.inl h)

theorem keyLE_trans (rank : String → Nat) (a b c : String)
    (h1 : keyLE rank a b) (h2 : keyLE rank b c) : keyLE rank a c := by
  unfold keyLE at *
  rcases h1 with h1 | ⟨h1, h1s⟩
  · rcases h2 with h2 | ⟨h2, _⟩
    · exact Or.inl (lt_trans h1 h2)
    · exact Or.inl (h2 ▸ h1)
  · rcases h2 with h2 | ⟨h2, h2s⟩
    · exact Or.inl (h1 ▸ h2)
    · exact Or.inr ⟨h1.trans h2, strLE_trans a b c h1s h2s⟩

theorem keyLE_antisymm (rank : String → Nat) (a b : String)
    (h1 : keyLE rank a b) (h2 : keyLE rank b a) : a = b := by
  unfold keyLE at *
  rcases h1 with h1 | ⟨h1, h1s⟩
  · rcases h2 with h2 | ⟨h2, _⟩
    · exact absurd h1 (not_lt_of_lt h2)
    · omega
  · rcases h2 with h2 | ⟨_, h2s⟩
    · omega
    · exact strLE_antisymm a b h1s h2s

theorem mem_rangeKeys (rank : String → Nat) (m : ConfMap) (k : String) :
    k ∈ rangeKeys rank m ↔ m.lookup k ≠ none := by
  unfold rangeKeys
  rw [(List.perm_insertionSort (keyLE rank) m.keys).mem_iff, mem_keys_iff]

/-- The first key a `range` meets that satisfies `p` depends only on which keys
satisfying `p` the map holds. -/
theorem find_rangeKeys_congr (rank : String → Nat) (p : String → Bool) (m1 m2 : ConfMap)
    (h : ∀ k, p k = true → (m1.lookup k ≠ none ↔ m2.lookup k ≠ none)) :
    (rangeKeys rank m1).find? p = (rangeKeys rank m2).find? p := by
  haveI : IsTotal String (keyLE rank) := ⟨keyLE_total rank⟩
  haveI : IsTrans String (keyLE rank) := ⟨keyLE_trans rank⟩
  haveI : IsAntisymm String (keyLE rank) := ⟨keyLE_antisymm rank⟩
  have hfilter : (rangeKeys rank m1).filter p = (rangeKeys rank m2).filter p := by
    apply List.eq_of_perm_of_sorted (r := keyLE rank)
    · apply (List.perm_ext_iff_of_nodup ?_ ?_).2
      · intro k
        simp only [List.mem_filter, mem_rangeKeys]
        constructor
        · rintro ⟨h1, h2⟩
          exact ⟨(h k h2).1 h1, h2⟩
        · rintro ⟨h1, h2⟩
          exact ⟨(h k h2).2 h1, h2⟩
      · exact (((List.perm_insertionSort (keyLE rank) m1.keys).nodup_iff).2 (nodup_keys m1)).filter _
      · exact (((List.perm_insertionSort (keyLE rank) m2.keys).nodup_iff).2 (nodup_keys m2)).filter _
    · exact (List.sorted_insertionSort (keyLE rank) m1.keys).filter _
    · exact (List.sorted_insertionSort (keyLE rank) m2.keys).filter _
  rw [← List.filter_head?, ← List.filter_head?, hfilter]

theorem get_set_ne (c : CLI) (f k : FieldId) (v : FieldValue) (h : f ≠ k) :
    (c.set f v).get k = c.get k := by
  cases f <;> cases k <;> cases v <;> first | rfl | exact absurd rfl h

theorem get_set_decoded (c : CLI) (k : FieldId) (name : String) (raw : Value) (v : FieldValue)
    (h : decodeValue k.kind name raw = .ok v) : (c.set k v).get k = v := by
  cases k <;> simp only [FieldId.kind, decodeValue] at h
  all_goals
    first
    | (cases hb : decodeBool name raw with
       | error e => simp [hb, Except.map] at h
       | ok b => simp [hb, Except.map] at h; subst h; rfl)
    | (cases hb : decodeString name raw with
       | error e => simp [hb, Except.map] at h
       | ok b => simp [hb, Except.map] at h; subst h; rfl)

theorem decodeValue_error_name (kind : Kind) (name : String) (raw : Value) (e : String)
    (h : decodeValue kind name raw = .error e) : e = name := by
  cases kind <;> simp only [decodeValue] at h
  · cases raw <;> simp [decodeBool, Except.map] at h
    case str s =>
      cases hp : ParseBool s with
      | none =>
        by_cases hs : s = ""
        · subst hs
          simp [hp] at h
        · simp [hp, hs] at h
          exact h.symm
      | some b => simp [hp] at h
    all_goals exact h.symm
  · cases raw <;> simp [decodeString, Except.map] at h
    all_goals exact h.symm

theorem decodeField_none (t : CaseTables) (rank : String → Nat) (m : ConfMap) (acc : CLI × List String)
    (f : FieldId) (h : findRaw t rank m f.tag = none) : decodeField t rank m acc f = acc := by
  simp [decodeField, h]

theorem decodeField_ok (t : CaseTables) (rank : String → Nat) (m : ConfMap) (acc : CLI × List String)
    (f : FieldId) (raw : Value) (v : FieldValue) (h : findRaw t rank m f.tag = some raw)
    (hd : decodeValue f.kind f.tag raw = .ok v) :
    decodeField t rank m acc f = (acc.1.set f v, acc.2) := by
  simp [decodeField, h, hd]

theorem decodeField_error (t : CaseTables) (rank : String → Nat) (m : ConfMap) (acc : CLI × List String)
    (f : FieldId) (raw : Value) (e : String) (h : findRaw t rank m f.tag = some raw)
    (hd : decodeValue f.kind f.tag raw = .error e) :
    decodeField t rank m acc f = (acc.1, acc.2 ++ [e]) := by
  simp [decodeField, h, hd]

theorem decodeField_errs_sub (t : CaseTables) (rank : String → Nat) (m : ConfMap) (acc : CLI × List String)
    (f : FieldId) (e : String) (h : e ∈ acc.2) : e ∈ (decodeField t rank m acc f).2 := by
  cases hr : findRaw t rank m f.tag with
  | none => rw [decodeField_none t rank m acc f hr]; exact h
  | some raw =>
    cases hd : decodeValue f.kind f.tag raw with
    | ok v => rw [decodeField_ok t rank m acc f raw v hr hd]; exact h
    | error e2 =>
      rw [decodeField_error t rank m acc f raw e2 hr hd]
      exact List.mem_append_left _ h

theorem foldl_decodeField_errs_sub (t : CaseTables) (rank : String → Nat) (m : ConfMap) (e : String) :
    ∀ (fs : List FieldId) (acc : CLI × List String), e ∈ acc.2 →
      e ∈ (fs.foldl (decodeField t rank m) acc).2
  | [], _, h => h
  | f :: fs, acc, h =>
    foldl_decodeField_errs_sub t rank m e fs _ (decodeField_errs_sub t rank m acc f e h)

theorem foldl_decodeField_errs_nil (t : CaseTables) (rank : String → Nat) (m : ConfMap)
    (fs : List FieldId) (acc : CLI × List String)
    (h : (fs.foldl (decodeField t rank m) acc).2 = []) : acc.2 = [] := by
  cases hacc : acc.2 with
  | nil => rfl
  | cons e es =>
    have := foldl_decodeField_errs_sub t rank m e fs acc (by simp [hacc])
    simp [h] at this

theorem decodeField_get_ne (t : CaseTables) (rank : String → Nat) (m : ConfMap) (acc : CLI × List String)
    (f k : FieldId) (h : f ≠ k) : (decodeField t rank m acc f).1.get k = acc.1.get k := by
  cases hr : findRaw t rank m f.tag with
  | none => rw [decodeField_none t rank m acc f hr]
  | some raw =>
    cases hd : decodeValue f.kind f.tag raw with
    | ok v => rw [decodeField_ok t rank m acc f raw v hr hd]; exact get_set_ne acc.1 f k v h
    | error e2 => rw [decodeField_error t rank m acc f raw e2 hr hd]

theorem foldl_decodeField_get_notin (t : CaseTables) (rank : String → Nat) (m : ConfMap) (k : FieldId) :
    ∀ (fs : List FieldId) (acc : CLI × List String), k ∉ fs →
      (fs.foldl (decodeField t rank m) acc).1.get k = acc.1.get k
  | [], _, _ => rfl
  | f :: fs, acc, h => by
    simp only [List.mem_cons, not_or] at h
    rw [List.foldl_cons, foldl_decodeField_get_notin t rank m k fs _ h.2,
      decodeField_get_ne t rank m acc f k (Ne.symm h.1)]

/-- What decoding leaves in field `k` when no error was collected. -/
theorem foldl_decodeField_get (t : CaseTables) (rank : String → Nat) (m : ConfMap) (k : FieldId) :
    ∀ (fs : List FieldId) (acc : CLI × List String), fs.Nodup → k ∈ fs →
      (fs.foldl (decodeField t rank m) acc).2 = [] →
      (findRaw t rank m k.tag = none ∧ (fs.foldl (decodeField t rank m) acc).1.get k = acc.1.get k) ∨
      (∃ raw, findRaw t rank m k.tag = some raw ∧
        decodeValue k.kind k.tag raw = .ok ((fs.foldl (decodeField t rank m) acc).1.get k))
  | [], _, _, h, _ => by simp at h
  | f :: fs, acc, hnd, hmem, herr => by
    simp only [List.nodup_cons] at hnd
    rw [List.foldl_cons] at herr ⊢
    by_cases hfk : f = k
    · subst hfk
      rw [foldl_decodeField_get_notin t rank m f fs _ hnd.1]
      have h0 := foldl_decodeField_errs_nil t rank m fs _ herr
      cases hr : findRaw t rank m f.tag with
      | none =>
        left
        rw [decodeField_none t rank m acc f hr]
        exact ⟨rfl, rfl⟩
      | some raw =>
        right
        refine ⟨raw, rfl, ?_⟩
        cases hd : decodeValue f.kind f.tag raw with
        | ok v =>
          rw [decodeField_ok t rank m acc f raw v hr hd]
          simp only []
          rw [get_set_decoded acc.1 f f.tag raw v hd]
        | error e =>
          rw [decodeField_error t rank m acc f raw e hr hd] at h0
          simp at h0
    · have hmem2 : k ∈ fs := by
        rcases List.mem_cons.1 hmem with h | h
        · exact absurd h.symm hfk
        · exact h
      rcases foldl_decodeField_get t rank m k fs _ hnd.2 hmem2 herr with h | h
      · left
        rw [h.2, decodeField_get_ne t rank m acc f k hfk]
        exact ⟨h.1, rfl⟩
      · exact Or.inr h

/-- A field whose entry does not decode leaves its name among the errors. -/
theorem foldl_decodeField_error (t : CaseTables) (rank : String → Nat) (m : ConfMap) (k : FieldId)
    (raw : Value) (e : String) (hr : findRaw t rank m k.tag = some raw)
    (hd : decodeValue k.kind k.tag raw = .error e) :
    ∀ (fs : List FieldId) (acc : CLI × List String), k ∈ fs →
      k.tag ∈ (fs.foldl (decodeField t rank m) acc).2
  | [], _, h => by simp at h
  | f :: fs, acc, h => by
    rw [List.foldl_cons]
    by_cases hfk : f = k
    · subst hfk
      apply foldl_decodeField_errs_sub
      have he := decodeValue_error_name f.kind f.tag raw e hd
      subst he
      rw [decodeField_error t rank m acc f raw _ hr hd]
      simp
    · rcases List.mem_cons.1 h with h | h
      · exact absurd h.symm hfk
      · exact foldl_decodeField_error t rank m k raw e hr hd fs _ h

theorem mem_cliFields (k : FieldId) : k ∈ cliFields := by
  cases k <;> simp [cliFields]

theorem nodup_cliFields : cliFields.Nodup := by decide

theorem loadFile_eq (w : World) (path : String) (confMap : ConfMap) :
    loadFile w path confMap = (readConfigFile w path).map (fun mp => Merge mp confMap) := by
  unfold loadFile
  cases readConfigFile w path <;> rfl

/-- The two loads of `InitCLIConfig` give `confState`. -/
theorem InitCLIConfigRun_eq (w : World) (flagPath : String) (loadDefaults : Bool) :
    InitCLIConfigRun w flagPath loadDefaults =
      match confState w (resolvePath w flagPath) with
      | .error err =>
        { loaded := if resolvePath w flagPath ≠ "" then [resolvePath w flagPath] else [],
          config := none, err := some err }
      | .ok confMap =>
        match Unmarshal w.tables w.keyRank confMap
            (if loadDefaults then some DefaultCLIConfig else none) with
        | (_, some err) =>
          { loaded := if resolvePath w flagPath ≠ "" then [resolvePath w flagPath] else [],
            config := none, err := some err }
        | (config, none) =>
          { loaded := if resolvePath w flagPath ≠ "" then [resolvePath w flagPath] else [],
            config := config, err := none } := by
  unfold InitCLIConfigRun confState
  simp only [loadFile_eq, loadEnv]
  cases (if resolvePath w flagPath ≠ "" then
      (readConfigFile w (resolvePath w flagPath)).map (fun mp => Merge mp .nil)
    else .ok .nil) <;> rfl

/-- What `InitCLIConfig` returns, from the conf map after the loads and the
struct `Unmarshal` starts from: the defaults, or a fresh zero `CLI`. -/
theorem InitCLIConfig_eq (w : World) (flagPath : String) (loadDefaults : Bool) :
    InitCLIConfig w flagPath loadDefaults =
      match confState w (resolvePath w flagPath) with
      | .error err => (none, some err)
      | .ok confMap =>
        match decodeStruct w.tables w.keyRank confMap (if loadDefaults then DefaultCLIConfig else zeroCLI) with
        | (c, []) => (some c, none)
        | (_, e :: errs) => (none, some (.decode (e :: errs))) := by
  unfold InitCLIConfig
  rw [InitCLIConfigRun_eq]
  cases hs : confState w (resolvePath w flagPath) with
  | error err => rfl
  | ok confMap =>
    cases loadDefaults
    · rcases hd : decodeStruct w.tables w.keyRank confMap zeroCLI with ⟨c, errs⟩
      cases errs <;> simp [Unmarshal, hd]
    · rcases hd : decodeStruct w.tables w.keyRank confMap DefaultCLIConfig with ⟨c, errs⟩
      cases errs <;> simp [Unmarshal, hd]

theorem InitCLIConfig_eq_at (w : World) (flagPath : String) (loadDefaults : Bool) :
    InitCLIConfig w flagPath loadDefaults
      = InitCLIConfigAt w (resolvePath w flagPath) loadDefaults :=
  InitCLIConfig_eq w flagPath loadDefaults

theorem mem_of_mem_Environ (e : String × String) :
    ∀ l : List (String × String), e ∈ Environ l → e ∈ l
  | [], h => by simp [Environ] at h
  | x :: rest, h => by
    simp only [Environ, List.mem_cons, List.mem_filter] at h
    rcases h with h | h
    · exact h ▸ List.mem_cons_self _ _
    · exact List.mem_cons_of_mem _ (mem_of_mem_Environ e rest h.1)

theorem find_of_mem_Environ (e : String × String) :
    ∀ l : List (String × String), e ∈ Environ l →
      l.find? (fun x => decide (x.1 = e.1)) = some e
  | [], h => by simp [Environ] at h
  | x :: rest, h => by
    simp only [Environ, List.mem_cons, List.mem_filter] at h
    rcases h with h | h
    · subst h
      simp
    · have hne : x.1 ≠ e.1 := by
        have := h.2
        simp only [ne_eq, decide_not, Bool.not_eq_eq_eq_not, Bool.not_true,
          decide_eq_false_iff_not] at this
        exact fun hx => this hx.symm
      rw [List.find?_cons_of_neg _ (by simpa using hne)]
      exact find_of_mem_Environ e rest h.1

theorem mem_Environ_of_find (n : String) (e : String × String) :
    ∀ l : List (String × String), l.find? (fun x => decide (x.1 = n)) = some e →
      e ∈ Environ l
  | [], h => by simp at h
  | x :: rest, h => by
    by_cases hx : x.1 = n
    · rw [List.find?_cons_of_pos _ (by simpa using hx)] at h
      simp only [Option.some.injEq] at h
      subst h
      simp [Environ]
    · rw [List.find?_cons_of_neg _ (by simpa using hx)] at h
      have he : e.1 = n := by simpa using List.find?_some h
      simp only [Environ, List.mem_cons, List.mem_filter]
      right
      refine ⟨mem_Environ_of_find n e rest h, ?_⟩
      simp only [ne_eq, decide_not, Bool.not_eq_eq_eq_not, Bool.not_true,
        decide_eq_false_iff_not]
      rw [he]
      exact fun hh => hx hh.symm

theorem lookup_envAssign_ne (t : CaseTables) (mp : ConfMap) (e : String × String) (q : String)
    (h : envCallback t e.1 ≠ q) : (envAssign t mp e).lookup q = mp.lookup q := by
  unfold envAssign
  split
  · rfl
  · exact lookup_set_ne _ _ q (Ne.symm h) mp

theorem lookup_envAssign_self (t : CaseTables) (mp : ConfMap) (e : String × String)
    (h : envCallback t e.1 ≠ "") : (envAssign t mp e).lookup (envCallback t e.1) = some (.str e.2) := by
  unfold envAssign
  rw [if_neg h]
  exact lookup_set_self _ _ mp

/-- The flat map binds a key to the value of the only kept variable deriving it. -/
theorem lookup_foldl_envAssign (t : CaseTables) (tag v : String) (htag : tag ≠ "") :
    ∀ (L : List (String × String)) (acc : ConfMap),
      (∀ e ∈ L, envCallback t e.1 = tag → e.2 = v) →
      (acc.lookup tag = some (.str v) ∨ ∃ e ∈ L, envCallback t e.1 = tag) →
      (L.foldl (envAssign t) acc).lookup tag = some (.str v)
  | [], acc, _, h => by
    rcases h with h | ⟨e, he, _⟩
    · exact h
    · simp at he
  | x :: rest, acc, huniq, h => by
    rw [List.foldl_cons]
    apply lookup_foldl_envAssign t tag v htag rest
    · exact fun e he => huniq e (List.mem_cons_of_mem _ he)
    · by_cases hx : envCallback t x.1 = tag
      · left
        have hv := huniq x (List.mem_cons_self _ _) hx
        have := lookup_envAssign_self t acc x (by rw [hx]; exact htag)
        rw [hx, hv] at this
        exact this
      · rcases h with h | ⟨e, he, hetag⟩
        · left
          rw [lookup_envAssign_ne t acc x tag hx]
          exact h
        · right
          rcases List.mem_cons.1 he with he | he
          · subst he
            exact absurd hetag hx
          · exact ⟨e, he, hetag⟩

/-- Every key of the flat map is derived from a kept variable. -/
theorem origin_foldl_envAssign (t : CaseTables) (q : String) :
    ∀ (L : List (String × String)) (acc : ConfMap),
      (L.foldl (envAssign t) acc).lookup q ≠ none →
      acc.lookup q ≠ none ∨ ∃ e ∈ L, envCallback t e.1 = q
  | [], _, h => Or.inl h
  | x :: rest, acc, h => by
    rw [List.foldl_cons] at h
    rcases origin_foldl_envAssign t q rest _ h with h2 | ⟨e, he, hq⟩
    · by_cases hx : envCallback t x.1 = q
      · exact Or.inr ⟨x, List.mem_cons_self _ _, hx⟩
      · rw [lookup_envAssign_ne t acc x q hx] at h2
        exact Or.inl h2
    · exact Or.inr ⟨e, List.mem_cons_of_mem _ he, hq⟩

theorem lookup_foldl_envAssign_congr (t : CaseTables) (q : String) :
    ∀ (L : List (String × String)) (acc1 acc2 : ConfMap),
      acc1.lookup q = acc2.lookup q →
      (L.foldl (envAssign t) acc1).lookup q = (L.foldl (envAssign t) acc2).lookup q
  | [], _, _, h => h
  | x :: rest, acc1, acc2, h => by
    rw [List.foldl_cons, List.foldl_cons]
    apply lookup_foldl_envAssign_congr t q rest
    by_cases hx : envCallback t x.1 = q
    · by_cases hq : envCallback t x.1 = ""
      · simp [envAssign, hq, h]
      · rw [← hx, lookup_envAssign_self t acc1 x hq, lookup_envAssign_self t acc2 x hq]
    · rw [lookup_envAssign_ne t acc1 x q hx, lookup_envAssign_ne t acc2 x q hx, h]

/-- Inserting a key whose last part is not `tag` leaves a non-map entry under `tag` alone. -/
theorem insertPath_preserve (tag : String) (sv : Value) (hsv : sv.isMap = false) (val : Value) :
    ∀ (parts : List String) (m : ConfMap), parts.getLast? ≠ some tag →
      m.lookup tag = some sv → (insertPath parts val m).lookup tag = some sv
  | [], _, _, h => by simpa [insertPath] using h
  | [last], m, hl, h => by
    simp only [List.getLast?_singleton, ne_eq, Option.some.injEq] at hl
    simp only [insertPath]
    rw [lookup_set_ne last val tag (Ne.symm hl)]
    exact h
  | p :: q :: rest, m, hl, h => by
    have hl2 : (q :: rest).getLast? ≠ some tag := by
      simpa [List.getLast?_cons_cons] using hl
    simp only [insertPath]
    cases hp : m.lookup p with
    | none =>
      have hpt : p ≠ tag := fun hh => by rw [hh, h] at hp; simp at hp
      simp only []
      rw [lookup_set_ne p _ tag (Ne.symm hpt)]
      exact h
    | some old =>
      cases old with
      | map sub =>
        have hpt : p ≠ tag := fun hh => by
          rw [hh, h] at hp
          simp only [Option.some.injEq] at hp
          subst hp
          simp [Value.isMap] at hsv
        simp only []
        rw [lookup_set_ne p _ tag (Ne.symm hpt)]
        exact h
      | _ => exact insertPath_preserve tag sv hsv val (q :: rest) m hl2 h

/-- `Unflatten` binds a one-part key to its value when no other key ends in that part. -/
theorem lookup_foldl_unflattenStep (mp : ConfMap) (tag : String) (sv : Value)
    (hsv : sv.isMap = false) (hsplit : Split tag = [tag]) (hmp : mp.lookup tag = some sv) :
    ∀ (it : List String) (out : ConfMap),
      (∀ key ∈ it, key ≠ tag → (Split key).getLast? ≠ some tag) →
      (out.lookup tag = some sv ∨ tag ∈ it) →
      (it.foldl (unflattenStep mp) out).lookup tag = some sv
  | [], out, _, h => by
    rcases h with h | h
    · exact h
    · simp at h
  | key :: rest, out, hlast, h => by
    rw [List.foldl_cons]
    apply lookup_foldl_unflattenStep mp tag sv hsv hsplit hmp rest
    · exact fun k hk => hlast k (List.mem_cons_of_mem _ hk)
    · by_cases hk : key = tag
      · left
        subst hk
        simp only [unflattenStep, hmp, hsplit, insertPath]
        exact lookup_set_self _ _ _
      · rcases h with h | h
        · left
          unfold unflattenStep
          cases hv : mp.lookup key with
          | none => exact h
          | some val =>
            exact insertPath_preserve tag sv hsv val (Split key) out
              (hlast key (List.mem_cons_self _ _) hk) h
        · right
          rcases List.mem_cons.1 h with h | h
          · exact absurd h.symm hk
          · exact h

theorem scanned_envVar (k : FieldId) (v : String) : scanned (k.envVar, v) = true := by
  simp only [scanned, HasPrefix, FieldId.envVar, String.data_append, List.append_assoc]
  rw [List.isPrefixOf_iff_prefix]
  exact List.prefix_append _ _

theorem envCallback_envVar (t : CaseTables) (k : FieldId) :
    envCallback t k.envVar = k.tag := by
  cases k <;> rfl

theorem split_tag (k : FieldId) : Split k.tag = [k.tag] := by
  cases k <;> decide

theorem tag_ne_empty (k : FieldId) : k.tag ≠ "" := by
  cases k <;> decide

/-- The map read from the environment binds field `k` to the text of its
variable when no other kept variable derives a key ending in `k`. -/
theorem lookup_envProviderRead (w : World) (k : FieldId) (v : String)
    (hset : LookupEnv w k.envVar = some v)
    (honly : ∀ e ∈ w.environ, scanned e = true → e.1 ≠ k.envVar →
      (Split (envCallback w.tables e.1)).getLast? ≠ some k.tag) :
    (envProviderRead w).lookup k.tag = some (.str v) := by
  -- the entry of the variable in `os.Environ()`
  obtain ⟨e0, hfind, he0⟩ : ∃ e0, w.environ.find? (fun x => decide (x.1 = k.envVar)) = some e0
      ∧ e0.2 = v := by
    unfold LookupEnv at hset
    cases hf : w.environ.find? (fun x => decide (x.1 = k.envVar)) with
    | none => simp [hf] at hset
    | some e0 => exact ⟨e0, rfl, by simpa [hf] using hset⟩
  have he0name : e0.1 = k.envVar := by simpa using List.find?_some hfind
  have he0mem : e0 ∈ Environ w.environ := mem_Environ_of_find k.envVar e0 w.environ hfind
  have he0scan : scanned e0 = true := by
    have := scanned_envVar k e0.2
    rw [← he0name] at this
    exact this
  have he0key : envCallback w.tables e0.1 = k.tag := by
    rw [he0name]; exact envCallback_envVar w.tables k
  -- every kept variable deriving the key `k` is that entry
  have huniq : ∀ e ∈ (Environ w.environ).filter scanned,
      envCallback w.tables e.1 = k.tag → e.2 = v := by
    intro e he hkey
    rw [List.mem_filter] at he
    by_cases hname : e.1 = k.envVar
    · have h1 := find_of_mem_Environ e w.environ he.1
      rw [hname, hfind] at h1
      simp only [Option.some.injEq] at h1
      rw [← h1]
      exact he0
    · have := honly e (mem_of_mem_Environ e _ he.1) he.2 hname
      rw [hkey, split_tag k] at this
      simp at this
  have hflat : (envFlatMap w.tables (Environ w.environ)).lookup k.tag = some (.str v) := by
    unfold envFlatMap
    apply lookup_foldl_envAssign w.tables k.tag v (tag_ne_empty k) _ _ huniq
    right
    exact ⟨e0, List.mem_filter.2 ⟨he0mem, he0scan⟩, he0key⟩
  unfold envProviderRead Unflatten
  apply lookup_foldl_unflattenStep _ k.tag (.str v) rfl (split_tag k) hflat
  · intro key hkey hne
    rw [mem_rangeKeys] at hkey
    unfold envFlatMap at hkey
    rcases origin_foldl_envAssign w.tables key _ _ hkey with h | ⟨e, he, hderive⟩
    · simp [ConfMap.lookup] at h
    · rw [List.mem_filter] at he
      have hname : e.1 ≠ k.envVar := by
        intro hh
        apply hne
        rw [← hderive, hh]
        exact envCallback_envVar w.tables k
      rw [← hderive]
      exact honly e (mem_of_mem_Environ e _ he.1) he.2 hname
  · right
    rw [mem_rangeKeys, hflat]
    simp

theorem confState_ok (w : World) (path : String) (m : ConfMap)
    (h : confState w path = .ok m) :
    ∃ base, m = Merge (envProviderRead w) base ∧
      ((path = "" ∧ base = .nil) ∨
       (path ≠ "" ∧ ∃ fm, readConfigFile w path = .ok fm ∧ base = Merge fm .nil)) := by
  unfold confState at h
  by_cases hp : path = ""
  · simp only [hp, ne_eq, not_true_eq_false, if_false, Except.ok.injEq] at h
    exact ⟨.nil, h.symm, Or.inl ⟨hp, rfl⟩⟩
  · simp only [ne_eq, hp, not_false_eq_true, if_true] at h
    cases hr : readConfigFile w path with
    | error err => simp [hr, Except.map] at h
    | ok fm =>
      simp only [hr, Except.map, Except.ok.injEq] at h
      exact ⟨Merge fm .nil, h.symm, Or.inr ⟨hp, fm, rfl, rfl⟩⟩

theorem findRaw_of_lookup (t : CaseTables) (rank : String → Nat) (m : ConfMap) (name : String) (v : Value)
    (h : m.lookup name = some v) : findRaw t rank m name = some v := by
  simp [findRaw, h]

/-- A successful call, once the path is settled: the conf map it decoded and
what decoding left in field `k`. -/
theorem InitCLIConfigAt_field (w : World) (path : String) (loadDefaults : Bool) (c : CLI)
    (k : FieldId) (hok : InitCLIConfigAt w path loadDefaults = (some c, none)) :
    ∃ m, confState w path = .ok m ∧
      ((findRaw w.tables w.keyRank m k.tag = none ∧
          c.get k = (if loadDefaults then DefaultCLIConfig else zeroCLI).get k) ∨
       (∃ raw, findRaw w.tables w.keyRank m k.tag = some raw ∧
          decodeValue k.kind k.tag raw = .ok (c.get k))) := by
  unfold InitCLIConfigAt at hok
  cases hs : confState w path with
  | error err => simp [hs] at hok
  | ok m =>
    refine ⟨m, rfl, ?_⟩
    simp only [hs] at hok
    rcases hd : decodeStruct w.tables w.keyRank m
        (if loadDefaults then DefaultCLIConfig else zeroCLI) with ⟨c2, errs⟩
    rw [hd] at hok
    cases errs with
    | cons e es => simp at hok
    | nil =>
      simp only [Prod.mk.injEq, Option.some.injEq, and_true] at hok
      subst hok
      have := foldl_decodeField_get w.tables w.keyRank m k cliFields
        (if loadDefaults then DefaultCLIConfig else zeroCLI, []) nodup_cliFields (mem_cliFields k)
        (by
          have h2 : (decodeStruct w.tables w.keyRank m
            (if loadDefaults then DefaultCLIConfig else zeroCLI)).2 = [] := by rw [hd]
          exact h2)
      have h1 : (cliFields.foldl (decodeField w.tables w.keyRank m)
          (if loadDefaults then DefaultCLIConfig else zeroCLI, [])).1 = c2 := by
        have h3 : (decodeStruct w.tables w.keyRank m
            (if loadDefaults then DefaultCLIConfig else zeroCLI)).1 = c2 := by rw [hd]
        exact h3
      rw [h1] at this
      exact this

theorem InitCLIConfig_field (w : World) (flagPath : String) (loadDefaults : Bool) (c : CLI)
    (k : FieldId) (hok : InitCLIConfig w flagPath loadDefaults = (some c, none)) :
    ∃ m, confState w (resolvePath w flagPath) = .ok m ∧
      ((findRaw w.tables w.keyRank m k.tag = none ∧
          c.get k = (if loadDefaults then DefaultCLIConfig else zeroCLI).get k) ∨
       (∃ raw, findRaw w.tables w.keyRank m k.tag = some raw ∧
          decodeValue k.kind k.tag raw = .ok (c.get k))) := by
  rw [InitCLIConfig_eq_at] at hok
  exact InitCLIConfigAt_field w _ loadDefaults c k hok

theorem decodeValue_of_parseAs (kind : Kind) (name v : String) (fv : FieldValue)
    (h : parseAs kind v = some fv) : decodeValue kind name (.str v) = .ok fv := by
  cases kind
  · simp only [parseAs, Option.map_eq_some'] at h
    obtain ⟨b, hb, hfv⟩ := h
    simp [decodeValue, decodeBool, hb, Except.map, hfv]
  · simp only [parseAs, Option.some.injEq] at h
    simp [decodeValue, decodeString, Except.map, h]

/-- C1 (as amended): the value of `RC3_CLI_<K>` wins over the file and the
defaults. If the environment sets the variable of field `k` to a text `v` that
is valid for the type of `k`, no other `RC3_CLI_` variable derives a key whose
last `__` part is `k`, and `InitCLIConfig` succeeds, then field `k` of the
returned configuration is `v`, whatever the file and `DefaultCLIConfig` hold. -/
theorem env_value_wins (w : World) (flagPath : String) (loadDefaults : Bool) (k : FieldId)
    (v : String) (fv : FieldValue) (c : CLI)
    (hset : LookupEnv w k.envVar = some v)
    (honly : ∀ e ∈ w.environ, scanned e = true → e.1 ≠ k.envVar →
      (Split (envCallback w.tables e.1)).getLast? ≠ some k.tag)
    (hvalid : parseAs k.kind v = some fv)
    (hok : InitCLIConfig w flagPath loadDefaults = (some c, none)) :
    c.get k = fv := by
  obtain ⟨m, hm, hfield⟩ := InitCLIConfig_field w flagPath loadDefaults c k hok
  obtain ⟨base, hbase, _⟩ := confState_ok w _ m hm
  have hraw : findRaw w.tables w.keyRank m k.tag = some (.str v) := by
    apply findRaw_of_lookup
    rw [hbase]
    exact lookup_Merge_of_not_isMap k.tag _ base (.str v)
      (lookup_envProviderRead w k v hset honly) rfl
  rcases hfield with ⟨hnone, _⟩ | ⟨raw, hr, hd⟩
  · rw [hraw] at hnone
    simp at hnone
  · rw [hraw] at hr
    simp only [Option.some.injEq] at hr
    subst hr
    rw [decodeValue_of_parseAs k.kind k.tag v fv hvalid] at hd
    simp only [Except.ok.injEq] at hd
    exact hd.symm

/-- C1 (as amended) at a world whose file sets `host` too: the value of
`RC3_CLI_HOST` is the one returned. -/
theorem env_value_wins_witness :
    (InitCLIConfig (mkWorld [("RC3_CLI_HOST", "db:1"), ("RC3_CLI_TOKEN", "t")]
        (some ("cfg.toml", .ofList [("host", .str "file:2")]))) "cfg.toml" true
      = (some { DefaultCLIConfig with Host := "db:1", Token := "t" }, none)) ∧
    ({ DefaultCLIConfig with Host := "db:1", Token := "t" } : CLI).get .Host = .string "db:1" :=
  ⟨by decide,
   env_value_wins (mkWorld [("RC3_CLI_HOST", "db:1"), ("RC3_CLI_TOKEN", "t")]
        (some ("cfg.toml", .ofList [("host", .str "file:2")]))) "cfg.toml" true .Host "db:1"
      (.string "db:1") _ (by decide) (by decide) (by decide) (by decide)⟩

/-- C1 (as stated) fails: with `RC3_CLI_HOST=a` followed by `RC3_CLI_host=b`
both names derive the key `host`, the later entry overwrites the earlier one,
and the call succeeds with host `b` although `RC3_CLI_HOST` is set to the valid
value `a`. -/
theorem env_value_wins_counterexample :
    LookupEnv (mkWorld [("RC3_CLI_HOST", "a"), ("RC3_CLI_host", "b")] none)
        FieldId.Host.envVar = some "a" ∧
    parseAs FieldId.Host.kind "a" = some (.string "a") ∧
    InitCLIConfig (mkWorld [("RC3_CLI_HOST", "a"), ("RC3_CLI_host", "b")] none) "" true
      = (some { DefaultCLIConfig with Host := "b" }, none) ∧
    ({ DefaultCLIConfig with Host := "b" } : CLI).get .Host ≠ .string "a" := by
  decide

theorem decodeValue_toValue (fv : FieldValue) (kind : Kind) (name : String)
    (h : fv.kind = kind) : decodeValue kind name fv.toValue = .ok fv := by
  cases fv <;> cases kind <;> first | rfl | simp [FieldValue.kind] at h

theorem toValue_not_isMap (fv : FieldValue) : fv.toValue.isMap = false := by
  cases fv <;> rfl

/-- What a file entry of the right type leaves in its field when the map read
from the environment has no entry under the key. -/
theorem field_of_file_value (w : World) (path : String) (loadDefaults : Bool) (k : FieldId)
    (fm : ConfMap) (fv : FieldValue) (c : CLI)
    (hpath : path ≠ "")
    (hfile : readConfigFile w path = .ok fm)
    (hset : fm.lookup k.tag = some fv.toValue)
    (htype : fv.kind = k.kind)
    (henv : (envProviderRead w).lookup k.tag = none)
    (hok : InitCLIConfigAt w path loadDefaults = (some c, none)) :
    c.get k = fv := by
  obtain ⟨m, hm, hfield⟩ := InitCLIConfigAt_field w path loadDefaults c k hok
  obtain ⟨base, hbase, hb⟩ := confState_ok w _ m hm
  have hbase2 : base = Merge fm .nil := by
    rcases hb with ⟨h, _⟩ | ⟨_, fm2, hfm2, h⟩
    · exact absurd h hpath
    · rw [hfile] at hfm2
      simp only [Except.ok.injEq] at hfm2
      rw [h, hfm2]
  have hraw : findRaw w.tables w.keyRank m k.tag = some fv.toValue := by
    apply findRaw_of_lookup
    rw [hbase, lookup_Merge_none k.tag base _ henv, hbase2]
    exact lookup_Merge_of_not_isMap k.tag fm .nil _ hset (toValue_not_isMap fv)
  rcases hfield with ⟨hnone, _⟩ | ⟨raw, hr, hd⟩
  · rw [hraw] at hnone
    simp at hnone
  · rw [hraw] at hr
    simp only [Option.some.injEq] at hr
    subst hr
    rw [decodeValue_toValue fv k.kind k.tag htype] at hd
    simp only [Except.ok.injEq] at hd
    exact hd.symm

/-- C2: a key set in the file and not in the environment takes the file's
value. If the file that is loaded parses to a map that binds the key of field
`k` to a value `fv` of the type of `k`, the map read from the `RC3_CLI_`
variables has no entry for that key, and `InitCLIConfig` succeeds, then field
`k` of the result is `fv`, whatever `DefaultCLIConfig` gives and whether or not
defaults are loaded. -/
theorem file_value_used (w : World) (flagPath : String) (loadDefaults : Bool) (k : FieldId)
    (fm : ConfMap) (fv : FieldValue) (c : CLI)
    (hpath : resolvePath w flagPath ≠ "")
    (hfile : readConfigFile w (resolvePath w flagPath) = .ok fm)
    (hset : fm.lookup k.tag = some fv.toValue)
    (htype : fv.kind = k.kind)
    (henv : (envProviderRead w).lookup k.tag = none)
    (hok : InitCLIConfig w flagPath loadDefaults = (some c, none)) :
    c.get k = fv := by
  rw [InitCLIConfig_eq_at] at hok
  exact field_of_file_value w _ loadDefaults k fm fv c hpath hfile hset htype henv hok

/-- C2 on the example of the specification: a file with
`host = "example.com:9090"` and `RC3_CLI_FORMAT=json` give that host, format
`json` and every other field at its default. -/
theorem file_value_used_witness :
    InitCLIConfig (mkWorld [("RC3_CLI_FORMAT", "json")]
        (some ("cfg.toml", .ofList [("host", .str "example.com:9090")]))) "cfg.toml" true
      = (some { Detail := false, Format := "json", Host := "example.com:9090",
                NoColor := false, Token := "" }, none) ∧
    ({ Detail := false, Format := "json", Host := "example.com:9090",
       NoColor := false, Token := "" } : CLI).get .Host = .string "example.com:9090" :=
  ⟨by decide,
   file_value_used (mkWorld [("RC3_CLI_FORMAT", "json")]
        (some ("cfg.toml", .ofList [("host", .str "example.com:9090")]))) "cfg.toml" true .Host
      (.ofList [("host", .str "example.com:9090")]) (.string "example.com:9090") _
      (by decide) rfl rfl rfl rfl (by decide)⟩

theorem InitCLIConfig_cases (w : World) (flagPath : String) (loadDefaults : Bool) :
    (∃ c, InitCLIConfig w flagPath loadDefaults = (some c, none)) ∨
    (∃ err, InitCLIConfig w flagPath loadDefaults = (none, some err)) := by
  rw [InitCLIConfig_eq]
  cases confState w (resolvePath w flagPath) with
  | error err => exact Or.inr ⟨err, rfl⟩
  | ok m =>
    rcases hd : decodeStruct w.tables w.keyRank m (if loadDefaults then DefaultCLIConfig else zeroCLI)
      with ⟨c, errs⟩
    cases errs with
    | nil => exact Or.inl ⟨c, by simp only [hd]⟩
    | cons e es => exact Or.inr ⟨.decode (e :: es), by simp only [hd]⟩

theorem equalFoldChars_self (t : CaseTables) : ∀ l : List Char, equalFoldChars t l l = true
  | [] => rfl
  | a :: as => by simp [equalFoldChars, foldRune, equalFoldChars_self t as]

theorem equalFold_self (t : CaseTables) (s : String) : EqualFold t s s = true :=
  equalFoldChars_self t s.data

theorem findRaw_eq_none (t : CaseTables) (rank : String → Nat) (m : ConfMap) (name : String)
    (h : ∀ key, EqualFold t key name = true → m.lookup key = none) :
    findRaw t rank m name = none := by
  have h1 : m.lookup name = none := h name (equalFold_self t name)
  have h2 : (rangeKeys rank m).find? (fun mK => EqualFold t mK name) = none := by
    rw [List.find?_eq_none]
    intro key hkey hfold
    rw [mem_rangeKeys] at hkey
    exact hkey (h key hfold)
  simp [findRaw, h1, h2]

theorem findRaw_nil (t : CaseTables) (rank : String → Nat) (name : String) :
    findRaw t rank .nil name = none :=
  findRaw_eq_none t rank .nil name (fun _ _ => rfl)

theorem scanned_config_path (v : String) : scanned ("RC3_CLI_CONFIG_PATH", v) = true := by
  simp only [scanned, HasPrefix, String.data_append]
  rw [List.isPrefixOf_iff_prefix]
  exact ⟨"CONFIG_PATH".data ++ "=".data ++ v.data, by simp⟩

theorem envProviderRead_of_none_scanned (w : World)
    (h : ∀ e ∈ w.environ, scanned e = false) : envProviderRead w = .nil := by
  have hf : (Environ w.environ).filter scanned = [] := by
    rw [List.filter_eq_nil_iff]
    intro e he
    rw [h e (mem_of_mem_Environ e _ he)]
    simp
  simp [envProviderRead, envFlatMap, hf, Unflatten, rangeKeys, ConfMap.keys]

/-- C3 (as stated) fails. A file whose only key is `HOST` does not set the
schema key `host`, and no variable is set; yet the decoder matches keys without
regard to case and the call returns host `x`, not the default (nor the zero
value without defaults). Likewise `RC3_CLI_X=1` with `RC3_CLI_X__HOST=evil`:
no variable derives the key `host`, yet when the range over the flat map meets
`x` before `x__host`, as in this world, `Unflatten` finds a string under `x`,
stays at the top and assigns `host`. -/
theorem default_when_unset_counterexample :
    ((ConfMap.ofList [("HOST", .str "x")]).lookup "host").isNone = true ∧
    InitCLIConfig (mkWorld [] (some ("cfg.toml", .ofList [("HOST", .str "x")]))) "cfg.toml" true
      = (some { DefaultCLIConfig with Host := "x" }, none) ∧
    InitCLIConfig (mkWorld [] (some ("cfg.toml", .ofList [("HOST", .str "x")]))) "cfg.toml" false
      = (some { zeroCLI with Host := "x" }, none) ∧
    DefaultCLIConfig.get .Host ≠ .string "x" ∧
    zeroCLI.get .Host ≠ .string "x" ∧
    (∀ e ∈ [("RC3_CLI_X", "1"), ("RC3_CLI_X__HOST", "evil")],
      envCallback asciiTables e.1 ≠ "host") ∧
    InitCLIConfig (mkWorld [("RC3_CLI_X", "1"), ("RC3_CLI_X__HOST", "evil")] none) "" true
      = (some { DefaultCLIConfig with Host := "evil" }, none) := by
  decide

/-- C3 (as amended): a key set nowhere keeps its default. `DefaultCLIConfig` is
host `localhost:8080`, format `pretty`, detail and no_color false, token empty.
For a field `k` such that neither the loaded file nor the map read from the
environment has an entry under a key equal to `k` up to letter case
(`strings.EqualFold`), a successful `InitCLIConfig` returns a non-nil
configuration whose field `k` is the default when `loadDefaults` is true and
the zero value when it is false. With no file found and no `RC3_CLI_` variable
set, `InitCLIConfig("", true)` succeeds and returns `DefaultCLIConfig()` exactly. -/
theorem default_when_unset :
    DefaultCLIConfig = { Detail := false, Format := "pretty", Host := "localhost:8080",
                         NoColor := false, Token := "" } ∧
    (∀ (w : World) (flagPath : String) (loadDefaults : Bool) (k : FieldId),
      (∀ fm, resolvePath w flagPath ≠ "" →
        readConfigFile w (resolvePath w flagPath) = .ok fm →
        ∀ key, EqualFold w.tables key k.tag = true → fm.lookup key = none) →
      (∀ key, EqualFold w.tables key k.tag = true → (envProviderRead w).lookup key = none) →
      (InitCLIConfig w flagPath loadDefaults).2 = none →
      ∃ c, InitCLIConfig w flagPath loadDefaults = (some c, none) ∧
        c.get k = (if loadDefaults then DefaultCLIConfig else zeroCLI).get k) ∧
    (∀ w : World, searchFilePaths w (possibleConfigPaths w w.homeDir "") = "" →
      (∀ e ∈ w.environ, scanned e = false) →
      InitCLIConfig w "" true = (some DefaultCLIConfig, none)) := by
  refine ⟨rfl, ?_, ?_⟩
  · intro w flagPath loadDefaults k hfile henv hok
    rcases InitCLIConfig_cases w flagPath loadDefaults with ⟨c, hc⟩ | ⟨err, herr⟩
    · refine ⟨c, hc, ?_⟩
      obtain ⟨m, hm, hfield⟩ := InitCLIConfig_field w flagPath loadDefaults c k hc
      obtain ⟨base, hbase, hb⟩ := confState_ok w _ m hm
      have hnone : findRaw w.tables w.keyRank m k.tag = none := by
        apply findRaw_eq_none
        intro key hfold
        by_contra hne
        rw [hbase] at hne
        rcases lookup_Merge_ne_none key _ base hne with h | h
        · exact h (henv key hfold)
        · rcases hb with ⟨_, hnil⟩ | ⟨hp, fm, hfm, hbm⟩
          · rw [hnil] at h
            exact h rfl
          · rw [hbm] at h
            rcases lookup_Merge_ne_none key fm .nil h with h2 | h2
            · exact h2 (hfile fm hp hfm key hfold)
            · exact h2 rfl
      rcases hfield with ⟨_, h⟩ | ⟨raw, hr, _⟩
      · exact h
      · rw [hnone] at hr
        simp at hr
    · rw [herr] at hok
      simp at hok
  · intro w hsearch henv
    have hget : Getenv w "RC3_CLI_CONFIG_PATH" = "" := by
      unfold Getenv LookupEnv
      cases hf : w.environ.find? (fun e => decide (e.1 = "RC3_CLI_CONFIG_PATH")) with
      | none => rfl
      | some e =>
        have hname : e.1 = "RC3_CLI_CONFIG_PATH" := by simpa using List.find?_some hf
        have hs := henv e (List.mem_of_find?_eq_some hf)
        have hs2 := scanned_config_path e.2
        rw [← hname] at hs2
        rw [hs2] at hs
        simp at hs
    have hpath : resolvePath w "" = "" := by
      simp [resolvePath, hget, hsearch]
    have hstate : confState w "" = .ok .nil := by
      simp [confState, envProviderRead_of_none_scanned w henv, Merge]
    rw [InitCLIConfig_eq, hpath, hstate]
    simp [decodeStruct, cliFields, decodeField, findRaw_nil]

/-- C3 (as amended) at a world without `RC3_CLI_` variable and without file, and
at a world that sets the format only. -/
theorem default_when_unset_witness :
    InitCLIConfig (mkWorld [("HOME", "/home/user")] none) "" true
      = (some DefaultCLIConfig, none) ∧
    (∃ c, InitCLIConfig (mkWorld [("RC3_CLI_FORMAT", "json")] none) "" false = (some c, none) ∧
      c.get .Host = .string "") :=
  ⟨default_when_unset.2.2 (mkWorld [("HOME", "/home/user")] none) (by decide) (by decide),
   default_when_unset.2.1 (mkWorld [("RC3_CLI_FORMAT", "json")] none) "" false .Host
     (fun _ h => absurd rfl h)
     (fun key _ => by
        by_cases hk : key = "format"
        · subst hk; contradiction
        · exact lookup_set_ne "format" _ key hk .nil)
     (by decide)⟩

theorem readConfigFile_congr (w1 w2 : World) (path : String)
    (h : w1.fs (Clean path) = w2.fs (Clean path)) :
    readConfigFile w1 path = readConfigFile w2 path := by
  unfold readConfigFile
  rw [h]

/-- Once the path is settled the result depends on the world through the file
at that path, the environment, the iteration order and the case tables only. -/
theorem InitCLIConfigAt_congr (w1 w2 : World) (path : String) (loadDefaults : Bool)
    (hfs : w1.fs (Clean path) = w2.fs (Clean path)) (henv : w1.environ = w2.environ)
    (hrank : w1.keyRank = w2.keyRank) (htab : w1.tables = w2.tables) :
    InitCLIConfigAt w1 path loadDefaults = InitCLIConfigAt w2 path loadDefaults := by
  unfold InitCLIConfigAt confState envProviderRead
  rw [readConfigFile_congr w1 w2 path hfs, henv, hrank, htab]

theorem resolvePath_of_config_path (w : World) (flagPath P : String) (hP : P ≠ "")
    (hset : LookupEnv w "RC3_CLI_CONFIG_PATH" = some P) : resolvePath w flagPath = P := by
  have hget : Getenv w "RC3_CLI_CONFIG_PATH" = P := by simp [Getenv, hset]
  simp [resolvePath, hget, hP]

/-- C4: `RC3_CLI_CONFIG_PATH` overrides every discovered path. When the variable
is set to a non-empty path `P`, whatever the flag path and the fallback search
give:
* the path `InitCLIConfig` settles on is `P`, and `P` is the one path it loads;
* the call returns what lines 63 to 86 return for the path `P`, and a world
  that differs in the flag path, the home directory, the fallback locations and
  every file but `P` returns the same;
* when nothing exists at `P` it returns the error of the missing file, and when
  `P` cannot be read or parsed it returns that error, instead of going on
  without a file;
* when `P` parses to a map that binds the key of field `k` to a value of its
  type and the environment has no entry for that key, a successful call
  returns that value in field `k`: the content of `P` is what is loaded. -/
theorem config_path_override (w : World) (flagPath : String) (loadDefaults : Bool) (P : String)
    (hP : P ≠ "") (hset : LookupEnv w "RC3_CLI_CONFIG_PATH" = some P) :
    resolvePath w flagPath = P ∧
    (InitCLIConfigRun w flagPath loadDefaults).loaded = [P] ∧
    InitCLIConfig w flagPath loadDefaults = InitCLIConfigAt w P loadDefaults ∧
    (∀ (w2 : World) (flagPath2 : String),
      w2.environ = w.environ → w2.keyRank = w.keyRank → w2.tables = w.tables →
      w2.fs (Clean P) = w.fs (Clean P) →
      InitCLIConfig w2 flagPath2 loadDefaults = InitCLIConfig w flagPath loadDefaults) ∧
    (w.fs (Clean P) = none →
      InitCLIConfig w flagPath loadDefaults = (none, some (.notExist (Clean P)))) ∧
    (∀ e, readConfigFile w P = .error e →
      InitCLIConfig w flagPath loadDefaults = (none, some e)) ∧
    (∀ (fm : ConfMap) (k : FieldId) (fv : FieldValue) (c : CLI),
      readConfigFile w P = .ok fm → fm.lookup k.tag = some fv.toValue → fv.kind = k.kind →
      (envProviderRead w).lookup k.tag = none →
      InitCLIConfig w flagPath loadDefaults = (some c, none) → c.get k = fv) := by
  have hpath : resolvePath w flagPath = P := resolvePath_of_config_path w flagPath P hP hset
  have hat : InitCLIConfig w flagPath loadDefaults = InitCLIConfigAt w P loadDefaults := by
    rw [InitCLIConfig_eq_at, hpath]
  have herr : ∀ e, readConfigFile w P = .error e →
      InitCLIConfig w flagPath loadDefaults = (none, some e) := by
    intro e he
    rw [hat]
    simp [InitCLIConfigAt, confState, hP, he, Except.map]
  refine ⟨hpath, ?_, hat, ?_, ?_, herr, ?_⟩
  · rw [InitCLIConfigRun_eq]
    simp only [hpath]
    cases confState w P with
    | error err => simp [hP]
    | ok m =>
      simp only []
      rcases Unmarshal w.tables w.keyRank m (if loadDefaults then some DefaultCLIConfig else none)
        with ⟨c, err⟩
      cases err <;> simp [hP]
  · intro w2 flagPath2 henv hrank htab hfs
    have hset2 : LookupEnv w2 "RC3_CLI_CONFIG_PATH" = some P := by
      unfold LookupEnv
      rw [henv]
      exact hset
    rw [InitCLIConfig_eq_at, resolvePath_of_config_path w2 flagPath2 P hP hset2, hat]
    exact InitCLIConfigAt_congr w2 w P loadDefaults hfs henv hrank htab
  · intro hfs
    apply herr
    simp [readConfigFile, hfs]
  · intro fm k fv c hfile hsetk htype henv hok
    rw [hat] at hok
    exact field_of_file_value w P loadDefaults k fm fv c hP hfile hsetk htype henv hok

/-- C4 at a world where the flag path and the variable name two files with
different hosts: the host returned is the one of the variable's file; and at a
world where the variable names a missing file. -/
theorem config_path_override_witness :
    (InitCLIConfig
      { mkWorld [("RC3_CLI_CONFIG_PATH", "/etc/rc3.toml")] none with
        fs := fun p =>
          if p = "cfg.toml" then some (.ok (.ofList [("host", .str "flag")]))
          else if p = "/etc/rc3.toml" then some (.ok (.ofList [("host", .str "env")]))
          else none }
      "cfg.toml" true
      = (some { DefaultCLIConfig with Host := "env" }, none) ∧
     ({ DefaultCLIConfig with Host := "env" } : CLI).get .Host = .string "env") ∧
    InitCLIConfig (mkWorld [("RC3_CLI_CONFIG_PATH", "/etc/rc3.toml")]
        (some ("cfg.toml", .ofList [("host", .str "h")]))) "cfg.toml" true
      = (none, some (.notExist "/etc/rc3.toml")) :=
  ⟨⟨by decide,
    (config_path_override
      { mkWorld [("RC3_CLI_CONFIG_PATH", "/etc/rc3.toml")] none with
        fs := fun p =>
          if p = "cfg.toml" then some (.ok (.ofList [("host", .str "flag")]))
          else if p = "/etc/rc3.toml" then some (.ok (.ofList [("host", .str "env")]))
          else none }
      "cfg.toml" true "/etc/rc3.toml" (by decide) (by decide)).2.2.2.2.2.2
      (.ofList [("host", .str "env")]) .Host (.string "env") _ rfl rfl rfl rfl (by decide)⟩,
   (config_path_override (mkWorld [("RC3_CLI_CONFIG_PATH", "/etc/rc3.toml")]
        (some ("cfg.toml", .ofList [("host", .str "h")]))) "cfg.toml" true "/etc/rc3.toml"
      (by decide) (by decide)).2.2.2.2.1 rfl⟩

/-- C5: `GetCLIEnvVars()` returns exactly the five names `RC3_CLI_DETAIL`,
`RC3_CLI_FORMAT`, `RC3_CLI_HOST`, `RC3_CLI_NO_COLOR`, `RC3_CLI_TOKEN`: one per
field of `CLI`, each the prefix followed by the upper-cased key, without
duplicates and in ascending order. -/
theorem getCLIEnvVars_eq :
    GetCLIEnvVars = ["RC3_CLI_DETAIL", "RC3_CLI_FORMAT", "RC3_CLI_HOST", "RC3_CLI_NO_COLOR",
                     "RC3_CLI_TOKEN"] ∧
    GetCLIEnvVars = cliFields.map (fun f => "RC3_CLI_" ++ ToUpper f.tag) ∧
    GetCLIEnvVars.length = cliFields.length ∧
    GetCLIEnvVars.Nodup ∧
    List.Sorted strLE GetCLIEnvVars ∧
    (∀ f : FieldId, f ∈ cliFields ∧ f.envVar ∈ GetCLIEnvVars) := by
  refine ⟨by decide, by decide, by decide, by decide, ?_, ?_⟩
  · haveI : IsTotal String strLE := ⟨strLE_total⟩
    haveI : IsTrans String strLE := ⟨strLE_trans⟩
    exact List.sorted_insertionSort strLE _
  · intro f
    cases f <;> decide

/-- C6: a file that cannot be loaded is a hard error. When the path settled on is
not empty and reading or parsing the file fails with `e`, `InitCLIConfig`
returns a nil configuration and exactly `e`; no result is built from the
defaults and the environment. -/
theorem load_error_returned (w : World) (flagPath : String) (loadDefaults : Bool) (e : GoError)
    (hpath : resolvePath w flagPath ≠ "")
    (hfail : readConfigFile w (resolvePath w flagPath) = .error e) :
    InitCLIConfig w flagPath loadDefaults = (none, some e) := by
  rw [InitCLIConfig_eq]
  simp [confState, hpath, hfail, Except.map]

/-- C6 at a world whose configuration file is malformed while the environment is valid. -/
theorem load_error_returned_witness :
    InitCLIConfig
      { environ := [("RC3_CLI_HOST", "h")]
        homeDir := "/home/user"
        fs := fun p => if p = "cfg.toml" then some (.error (.load "toml: bad syntax")) else none
        fallbackPaths := fun _ => []
        keyRank := fun _ => 0
        tables := asciiTables } "cfg.toml" true
      = (none, some (.load "toml: bad syntax")) :=
  load_error_returned _ "cfg.toml" true (.load "toml: bad syntax") (by decide) rfl

/-- C7: `InitCLIConfig` returns either a non-nil configuration with a nil error
or a nil configuration with a non-nil error, never both nil (also without
defaults and with nothing set) and never both non-nil. -/
theorem result_xor_error (w : World) (flagPath : String) (loadDefaults : Bool) :
    ((∃ c, InitCLIConfig w flagPath loadDefaults = (some c, none)) ∨
     (∃ err, InitCLIConfig w flagPath loadDefaults = (none, some err))) ∧
    InitCLIConfig w flagPath loadDefaults ≠ (none, none) ∧
    (∀ c err, InitCLIConfig w flagPath loadDefaults ≠ (some c, some err)) := by
  rcases InitCLIConfig_cases w flagPath loadDefaults with ⟨c, h⟩ | ⟨err, h⟩
  · rw [h]
    exact ⟨Or.inl ⟨c, rfl⟩, by simp, by simp⟩
  · rw [h]
    exact ⟨Or.inr ⟨err, rfl⟩, by simp, by simp⟩

/-- C8 (as stated) fails: a file giving `host` the integer 8080, a value that is
not a string, is accepted; the call succeeds with host `"8080"`. So does an
empty `RC3_CLI_DETAIL`, which is not a boolean: it decodes to false. -/
theorem type_mismatch_counterexample :
    InitCLIConfig (mkWorld [] (some ("cfg.toml", .ofList [("host", .int 8080)]))) "cfg.toml" true
      = (some { DefaultCLIConfig with Host := "8080" }, none) ∧
    ParseBool "" = none ∧
    InitCLIConfig (mkWorld [("RC3_CLI_DETAIL", "")] none) "" true
      = (some DefaultCLIConfig, none) := by
  decide

theorem decodeValue_of_unconvertible (kind : Kind) (name : String) (raw : Value)
    (h : unconvertible kind raw = true) : decodeValue kind name raw = .error name := by
  cases kind <;> cases raw <;>
    simp_all [unconvertible, decodeValue, decodeBool, decodeString, Except.map]

/-- C8 (as amended): a value that weak decoding cannot convert is a hard error.
If the value bound to field `k` is a table, an array or a date, or, for detail
and no_color, a non-empty string that `strconv.ParseBool` rejects, then
`InitCLIConfig` returns a nil configuration and a decoding error naming `k`. -/
theorem unconvertible_value_fails (w : World) (flagPath : String) (loadDefaults : Bool)
    (k : FieldId) (raw : Value)
    (hbound : boundValue w flagPath k = some raw)
    (hbad : unconvertible k.kind raw = true) :
    ∃ errs, k.tag ∈ errs ∧
      InitCLIConfig w flagPath loadDefaults = (none, some (.decode errs)) := by
  unfold boundValue at hbound
  rw [InitCLIConfig_eq]
  cases hs : confState w (resolvePath w flagPath) with
  | error err => simp [hs] at hbound
  | ok m =>
    simp only [hs] at hbound
    have hmem := foldl_decodeField_error w.tables w.keyRank m k raw k.tag hbound
      (decodeValue_of_unconvertible k.kind k.tag raw hbad) cliFields
      (if loadDefaults then DefaultCLIConfig else zeroCLI, []) (mem_cliFields k)
    rcases hd : decodeStruct w.tables w.keyRank m (if loadDefaults then DefaultCLIConfig else zeroCLI)
      with ⟨c, errs⟩
    have hmem2 : k.tag ∈ errs := by
      have h3 : (decodeStruct w.tables w.keyRank m
          (if loadDefaults then DefaultCLIConfig else zeroCLI)).2 = errs := by rw [hd]
      rw [← h3]
      exact hmem
    cases errs with
    | nil => simp at hmem2
    | cons e es => exact ⟨e :: es, hmem2, by simp only [hd]⟩

/-- C8 (as amended) at `RC3_CLI_NO_COLOR=maybe` and at a file giving `token` a table. -/
theorem unconvertible_value_fails_witness :
    (∃ errs, "no_color" ∈ errs ∧
      InitCLIConfig (mkWorld [("RC3_CLI_NO_COLOR", "maybe")] none) "" true
        = (none, some (.decode errs))) ∧
    (∃ errs, "token" ∈ errs ∧
      InitCLIConfig (mkWorld [] (some ("cfg.toml",
          .ofList [("token", .map (.ofList [("id", .str "x")]))]))) "cfg.toml" false
        = (none, some (.decode errs))) :=
  ⟨unconvertible_value_fails (mkWorld [("RC3_CLI_NO_COLOR", "maybe")] none) "" true .NoColor
     (.str "maybe") rfl (by decide),
   unconvertible_value_fails (mkWorld [] (some ("cfg.toml",
          .ofList [("token", .map (.ofList [("id", .str "x")]))]))) "cfg.toml" false .Token
     (.map (.ofList [("id", .str "x")])) rfl rfl⟩

/-- C10: the advertised variable names and the keys the loader binds agree. For
every name in `GetCLIEnvVars()` the key the loader derives from it (prefix
stripped, lower-cased, split on `__`) is one flat key, the tag of exactly one
field of `CLI`; distinct names derive distinct keys; and every field of `CLI`
is reached by the listed name `RC3_CLI_<TAG>`. -/
theorem env_names_match_keys (t : CaseTables) :
    (∀ N ∈ GetCLIEnvVars, scanned (N, "") = true ∧
      ∃ f ∈ cliFields, Split (envCallback t N) = [f.tag] ∧
        ∀ g ∈ cliFields, Split (envCallback t N) = [g.tag] → g = f) ∧
    (∀ N ∈ GetCLIEnvVars, ∀ M ∈ GetCLIEnvVars, envCallback t N = envCallback t M → N = M) ∧
    (∀ f ∈ cliFields, ∃ N ∈ GetCLIEnvVars, Split (envCallback t N) = [f.tag]) ∧
    (∀ f : FieldId, f ∈ cliFields ∧ f.envVar ∈ GetCLIEnvVars ∧
      envCallback t f.envVar = f.tag) := by
  have hvars : GetCLIEnvVars = ["RC3_CLI_DETAIL", "RC3_CLI_FORMAT", "RC3_CLI_HOST",
      "RC3_CLI_NO_COLOR", "RC3_CLI_TOKEN"] := by decide
  have hd : envCallback t "RC3_CLI_DETAIL" = "detail" := rfl
  have hf : envCallback t "RC3_CLI_FORMAT" = "format" := rfl
  have hh : envCallback t "RC3_CLI_HOST" = "host" := rfl
  have hn : envCallback t "RC3_CLI_NO_COLOR" = "no_color" := rfl
  have ht : envCallback t "RC3_CLI_TOKEN" = "token" := rfl
  refine ⟨?_, ?_, ?_, ?_⟩
  · rw [hvars]
    simp only [List.forall_mem_cons, List.not_mem_nil, false_implies, implies_true, and_true,
      hd, hf, hh, hn, ht]
    decide
  · rw [hvars]
    simp only [List.forall_mem_cons, List.not_mem_nil, false_implies, implies_true, and_true,
      hd, hf, hh, hn, ht]
    decide
  · intro f _
    rw [hvars]
    cases f
    · exact ⟨"RC3_CLI_DETAIL", by decide, by rw [hd]; rfl⟩
    · exact ⟨"RC3_CLI_FORMAT", by decide, by rw [hf]; rfl⟩
    · exact ⟨"RC3_CLI_HOST", by decide, by rw [hh]; rfl⟩
    · exact ⟨"RC3_CLI_NO_COLOR", by decide, by rw [hn]; rfl⟩
    · exact ⟨"RC3_CLI_TOKEN", by decide, by rw [ht]; rfl⟩
  · intro f
    cases f <;> exact ⟨by decide, by decide, rfl⟩

/-- The entry decoded into a field depends only on the entries under the keys
that match the field's name. -/
theorem findRaw_congr (t : CaseTables) (rank : String → Nat) (m1 m2 : ConfMap)
    (name : String)
    (h : ∀ key, EqualFold t key name = true → m1.lookup key = m2.lookup key) :
    findRaw t rank m1 name = findRaw t rank m2 name := by
  have hexact := h name (equalFold_self t name)
  have hfind : (rangeKeys rank m1).find? (fun mK => EqualFold t mK name)
      = (rangeKeys rank m2).find? (fun mK => EqualFold t mK name) := by
    apply find_rangeKeys_congr
    intro k hk
    rw [h k hk]
  unfold findRaw
  rw [hexact, hfind]
  cases m2.lookup name with
  | some v => rfl
  | none =>
    simp only []
    cases hf : (rangeKeys rank m2).find? (fun mK => EqualFold t mK name) with
    | none => rfl
    | some mK =>
      simp only []
      exact h mK (by simpa using List.find?_some hf)

theorem decodeStruct_congr (t : CaseTables) (rank : String → Nat) (m1 m2 : ConfMap) (c : CLI)
    (h : ∀ k : FieldId, findRaw t rank m1 k.tag = findRaw t rank m2 k.tag) :
    decodeStruct t rank m1 c = decodeStruct t rank m2 c := by
  have hstep : decodeField t rank m1 = decodeField t rank m2 := by
    funext acc f
    unfold decodeField
    rw [h f]
  unfold decodeStruct
  rw [hstep]

/-- Assigning a key in the file's map changes the merged map under that key only. -/
theorem lookup_Merge_set_left (q : String) (val : Value) (b : ConfMap) (p : String)
    (hp : p ≠ q) :
    ∀ fm : ConfMap, (Merge (fm.set q val) b).lookup p = (Merge fm b).lookup p
  | .nil => by
    simp only [ConfMap.set]
    rw [Merge_cons, lookup_set_ne q _ p hp]
  | .cons key v rest => by
    by_cases hk : key = q
    · subst hk
      simp only [ConfMap.set, if_true]
      rw [Merge_cons, Merge_cons, lookup_set_ne key _ p hp, lookup_set_ne key _ p hp]
    · simp only [ConfMap.set, hk, if_false]
      rw [Merge_cons, Merge_cons]
      by_cases hpk : p = key
      · subst hpk
        rw [lookup_set_self, lookup_set_self, lookup_Merge_set_left q val b p hp rest]
      · rw [lookup_set_ne key _ p hpk, lookup_set_ne key _ p hpk]
        exact lookup_Merge_set_left q val b p hp rest

theorem rawKeys_set (k : String) (v : Value) :
    ∀ m : ConfMap, (m.set k v).rawKeys = if k ∈ m.rawKeys then m.rawKeys else m.rawKeys ++ [k]
  | .nil => by simp [ConfMap.set, ConfMap.rawKeys]
  | .cons key val rest => by
    by_cases h : key = k
    · subst h
      simp [ConfMap.set, ConfMap.rawKeys]
    · have ih := rawKeys_set k v rest
      simp only [ConfMap.set, h, if_false, ConfMap.rawKeys, ih, List.mem_cons, Ne.symm h,
        false_or]
      split <;> simp

theorem nodup_rawKeys_set (k : String) (v : Value) (m : ConfMap) (h : m.rawKeys.Nodup) :
    (m.set k v).rawKeys.Nodup := by
  rw [rawKeys_set]
  split
  · exact h
  · rename_i hk
    rw [List.nodup_append]
    refine ⟨h, List.nodup_singleton k, ?_⟩
    intro a ha hb
    rw [List.mem_singleton] at hb
    subst hb
    exact hk ha

theorem nodup_rawKeys_insertPath (v : Value) :
    ∀ (parts : List String) (m : ConfMap), m.rawKeys.Nodup →
      (insertPath parts v m).rawKeys.Nodup
  | [], _, h => by simpa [insertPath] using h
  | [last], m, h => by
    simp only [insertPath]
    exact nodup_rawKeys_set last v m h
  | p :: q :: rest, m, h => by
    simp only [insertPath]
    cases hp : m.lookup p with
    | none => exact nodup_rawKeys_set p _ m h
    | some old =>
      cases old with
      | map sub => exact nodup_rawKeys_set p _ m h
      | _ => exact nodup_rawKeys_insertPath v (q :: rest) m h

theorem nodup_rawKeys_foldl_unflattenStep (mp : ConfMap) :
    ∀ (it : List String) (out : ConfMap), out.rawKeys.Nodup →
      (it.foldl (unflattenStep mp) out).rawKeys.Nodup
  | [], _, h => h
  | key :: rest, out, h => by
    rw [List.foldl_cons]
    apply nodup_rawKeys_foldl_unflattenStep mp rest
    unfold unflattenStep
    cases mp.lookup key with
    | none => exact h
    | some v => exact nodup_rawKeys_insertPath v (Split key) out h

theorem nodup_rawKeys_envProviderRead (w : World) : (envProviderRead w).rawKeys.Nodup := by
  unfold envProviderRead Unflatten
  exact nodup_rawKeys_foldl_unflattenStep _ _ .nil (by simp [ConfMap.rawKeys])

/-- Inserting a key whose first part is new touches the map under that part only. -/
theorem insertPath_fresh (v : Value) (p : String) (rest : List String) (m : ConfMap)
    (hp : m.lookup p = none) (q : String) (hq : q ≠ p) :
    (insertPath (p :: rest) v m).lookup q = m.lookup q := by
  cases rest with
  | nil =>
    simp only [insertPath]
    exact lookup_set_ne p v q hq m
  | cons r rs =>
    simp only [insertPath, hp]
    exact lookup_set_ne p _ q hq m

/-- Inserting a key leaves the map alone under every name that is not a part of the key. -/
theorem insertPath_other (v : Value) (s : String) :
    ∀ (parts : List String) (m : ConfMap), s ∉ parts →
      (insertPath parts v m).lookup s = m.lookup s
  | [], _, _ => by simp [insertPath]
  | [last], m, h => by
    simp only [List.mem_singleton] at h
    simp only [insertPath]
    exact lookup_set_ne last v s h m
  | p :: q :: rest, m, h => by
    have hsp : s ≠ p := fun hh => h (hh ▸ List.mem_cons_self _ _)
    have hrest : s ∉ q :: rest := fun hh => h (List.mem_cons_of_mem _ hh)
    simp only [insertPath]
    cases hp : m.lookup p with
    | none => exact lookup_set_ne p _ s hsp m
    | some old =>
      cases old with
      | map sub => exact lookup_set_ne p _ s hsp m
      | _ => exact insertPath_other v s (q :: rest) m hrest

/-- Two maps that agree outside the name `s` still do after the same key, none
of whose parts is `s`, has been inserted into both. -/
theorem insertPath_agree (v : Value) (s : String) :
    ∀ (parts : List String) (m1 m2 : ConfMap), s ∉ parts →
      (∀ q, q ≠ s → m1.lookup q = m2.lookup q) →
      ∀ q, q ≠ s → (insertPath parts v m1).lookup q = (insertPath parts v m2).lookup q
  | [], _, _, _, h, q, hq => by simpa [insertPath] using h q hq
  | [last], m1, m2, _, h, q, hq => by
    simp only [insertPath]
    by_cases hql : q = last
    · subst hql
      rw [lookup_set_self, lookup_set_self]
    · rw [lookup_set_ne last v q hql, lookup_set_ne last v q hql]
      exact h q hq
  | p :: r :: rest, m1, m2, hs, h, q, hq => by
    have hps : p ≠ s := fun hh => hs (hh ▸ List.mem_cons_self _ _)
    have hrest : s ∉ r :: rest := fun hh => hs (List.mem_cons_of_mem _ hh)
    simp only [insertPath]
    rw [h p hps]
    cases hp : m2.lookup p with
    | none =>
      simp only []
      by_cases hqp : q = p
      · subst hqp
        rw [lookup_set_self, lookup_set_self]
      · rw [lookup_set_ne p _ q hqp, lookup_set_ne p _ q hqp]
        exact h q hq
    | some old =>
      cases old with
      | map sub =>
        simp only []
        by_cases hqp : q = p
        · subst hqp
          rw [lookup_set_self, lookup_set_self]
        · rw [lookup_set_ne p _ q hqp, lookup_set_ne p _ q hqp]
          exact h q hq
      | _ => exact insertPath_agree v s (r :: rest) m1 m2 hrest h q hq

/-- `Unflatten` with one more flat key `d`, whose first part `s1` is a part of
no other key: outside `s1` the result is the one without `d`. -/
theorem foldl_unflattenStep_sim (mp1 mp2 : ConfMap) (d s1 : String) (rest1 : List String)
    (hsplit : Split d = s1 :: rest1)
    (hmp : ∀ q, q ≠ d → mp1.lookup q = mp2.lookup q)
    (hparts : ∀ q, mp2.lookup q ≠ none → s1 ∉ Split q) :
    ∀ (it : List String) (out1 out2 : ConfMap), it.Nodup →
      (d ∈ it → out1.lookup s1 = none) →
      (∀ q, q ≠ s1 → out1.lookup q = out2.lookup q) →
      ∀ q, q ≠ s1 → (it.foldl (unflattenStep mp1) out1).lookup q
        = ((it.filter (fun k => decide (k ≠ d))).foldl (unflattenStep mp2) out2).lookup q
  | [], _, _, _, _, h, q, hq => h q hq
  | key :: rest, out1, out2, hnd, hfresh, h, q, hq => by
    simp only [List.nodup_cons] at hnd
    rw [List.foldl_cons]
    by_cases hk : key = d
    · subst hk
      have hfilter : (key :: rest).filter (fun k => decide (k ≠ key))
          = rest.filter (fun k => decide (k ≠ key)) := by simp
      rw [hfilter]
      apply foldl_unflattenStep_sim mp1 mp2 key s1 rest1 hsplit hmp hparts rest _ _ hnd.2
      · exact fun hin => absurd hin hnd.1
      · intro p hp
        rw [← h p hp]
        unfold unflattenStep
        cases mp1.lookup key with
        | none => rfl
        | some v =>
          simp only [hsplit]
          exact insertPath_fresh v s1 rest1 out1 (hfresh (List.mem_cons_self _ _)) p hp
      · exact hq
    · have hfilter : (key :: rest).filter (fun k => decide (k ≠ d))
          = key :: rest.filter (fun k => decide (k ≠ d)) := by simp [hk]
      rw [hfilter, List.foldl_cons]
      have hlook := hmp key hk
      apply foldl_unflattenStep_sim mp1 mp2 d s1 rest1 hsplit hmp hparts rest _ _ hnd.2
      · intro hin
        have h0 := hfresh (List.mem_cons_of_mem _ hin)
        unfold unflattenStep
        cases hv : mp1.lookup key with
        | none => exact h0
        | some v =>
          simp only []
          rw [insertPath_other v s1 (Split key) out1
            (hparts key (by rw [← hlook, hv]; simp))]
          exact h0
      · intro p hp
        unfold unflattenStep
        rw [hlook]
        cases hv : mp2.lookup key with
        | none => exact h p hp
        | some v =>
          exact insertPath_agree v s1 (Split key) out1 out2
            (hparts key (by rw [hv]; simp)) h p hp
      · exact hq

theorem rangeKeys_filter_ne (rank : String → Nat) (mp1 mp2 : ConfMap) (d : String)
    (hmp : ∀ q, q ≠ d → mp1.lookup q = mp2.lookup q) (hd : mp2.lookup d = none) :
    (rangeKeys rank mp1).filter (fun k => decide (k ≠ d)) = rangeKeys rank mp2 := by
  haveI : IsTotal String (keyLE rank) := ⟨keyLE_total rank⟩
  haveI : IsTrans String (keyLE rank) := ⟨keyLE_trans rank⟩
  haveI : IsAntisymm String (keyLE rank) := ⟨keyLE_antisymm rank⟩
  apply List.eq_of_perm_of_sorted (r := keyLE rank)
  · apply (List.perm_ext_iff_of_nodup ?_ ?_).2
    · intro k
      simp only [List.mem_filter, mem_rangeKeys, decide_eq_true_eq]
      constructor
      · rintro ⟨h1, h2⟩
        rwa [hmp k h2] at h1
      · intro h1
        have hkd : k ≠ d := fun hh => h1 (hh ▸ hd)
        exact ⟨by rwa [hmp k hkd], hkd⟩
    · exact (((List.perm_insertionSort (keyLE rank) mp1.keys).nodup_iff).2 (nodup_keys mp1)).filter _
    · exact ((List.perm_insertionSort (keyLE rank) mp2.keys).nodup_iff).2 (nodup_keys mp2)
  · exact (List.sorted_insertionSort (keyLE rank) mp1.keys).filter _
  · exact List.sorted_insertionSort (keyLE rank) mp2.keys

theorem lookup_Unflatten_sim (rank : String → Nat) (mp1 mp2 : ConfMap) (d s1 : String)
    (rest1 : List String) (hsplit : Split d = s1 :: rest1)
    (hmp : ∀ q, q ≠ d → mp1.lookup q = mp2.lookup q)
    (hd : mp2.lookup d = none)
    (hparts : ∀ q, mp2.lookup q ≠ none → s1 ∉ Split q) (q : String) (hq : q ≠ s1) :
    (Unflatten rank mp1).lookup q = (Unflatten rank mp2).lookup q := by
  unfold Unflatten
  rw [← rangeKeys_filter_ne rank mp1 mp2 d hmp hd]
  apply foldl_unflattenStep_sim mp1 mp2 d s1 rest1 hsplit hmp hparts
  · exact ((List.perm_insertionSort (keyLE rank) mp1.keys).nodup_iff).2 (nodup_keys mp1)
  · exact fun _ => rfl
  · exact fun _ _ => rfl
  · exact hq

theorem filter_Environ_ne (n : String) :
    ∀ l : List (String × String), (∀ e ∈ l, e.1 ≠ n) →
      (Environ l).filter (fun y => decide (y.1 ≠ n)) = Environ l := by
  intro l h
  rw [List.filter_eq_self]
  intro e he
  simpa using h e (mem_of_mem_Environ e l he)

/-- `os.Environ()` after one more variable, not set before, has been put into
the environment block. -/
theorem Environ_insert (n x : String) :
    ∀ (l1 l2 : List (String × String)), (∀ e ∈ l1 ++ l2, e.1 ≠ n) →
      ∃ A B, Environ (l1 ++ l2) = A ++ B ∧ Environ (l1 ++ (n, x) :: l2) = A ++ (n, x) :: B
  | [], l2, h => by
    refine ⟨[], Environ l2, rfl, ?_⟩
    simp only [List.nil_append, Environ]
    rw [filter_Environ_ne n l2 (by simpa using h)]
  | e :: l1, l2, h => by
    have hrest : ∀ y ∈ l1 ++ l2, y.1 ≠ n := fun y hy => h y (List.mem_cons_of_mem _ hy)
    obtain ⟨A, B, hA, hB⟩ := Environ_insert n x l1 l2 hrest
    have hne : e.1 ≠ n := h e (List.mem_cons_self _ _)
    refine ⟨e :: A.filter (fun y => decide (y.1 ≠ e.1)),
      B.filter (fun y => decide (y.1 ≠ e.1)), ?_, ?_⟩
    · have h1 : Environ (e :: l1 ++ l2)
          = e :: (Environ (l1 ++ l2)).filter (fun y => decide (y.1 ≠ e.1)) := rfl
      rw [h1, hA, List.filter_append]
      rfl
    · have h1 : Environ (e :: l1 ++ (n, x) :: l2)
          = e :: (Environ (l1 ++ (n, x) :: l2)).filter (fun y => decide (y.1 ≠ e.1)) := rfl
      have h2 : ((n, x) :: B).filter (fun y => decide (y.1 ≠ e.1))
          = (n, x) :: B.filter (fun y => decide (y.1 ≠ e.1)) := by
        simp [Ne.symm hne]
      rw [h1, hB, List.filter_append, h2]
      rfl

theorem LookupEnv_insert (w : World) (l1 l2 : List (String × String)) (n x key : String)
    (hkey : key ≠ n) :
    LookupEnv { w with environ := l1 ++ (n, x) :: l2 } key
      = LookupEnv { w with environ := l1 ++ l2 } key := by
  have hneg : ((n, x) :: l2).find? (fun e => decide (e.1 = key))
      = l2.find? (fun e => decide (e.1 = key)) := by
    simp [Ne.symm hkey]
  simp only [LookupEnv, List.find?_append]
  rw [hneg]

/-- The flat maps of the environment with and without the added variable. -/
theorem envFlatMap_insert (t : CaseTables) (l1 l2 : List (String × String)) (n x : String)
    (hnew : ∀ e ∈ l1 ++ l2, e.1 ≠ n) (q : String) (hq : q ≠ envCallback t n) :
    (envFlatMap t (Environ (l1 ++ (n, x) :: l2))).lookup q
      = (envFlatMap t (Environ (l1 ++ l2))).lookup q := by
  obtain ⟨A, B, hA, hB⟩ := Environ_insert n x l1 l2 hnew
  unfold envFlatMap
  rw [hA, hB, List.filter_append, List.filter_append, List.foldl_append, List.foldl_append]
  by_cases hs : scanned (n, x) = true
  · have hf : ((n, x) :: B).filter scanned = (n, x) :: B.filter scanned := by simp [hs]
    rw [hf, List.foldl_cons]
    apply lookup_foldl_envAssign_congr t
    exact lookup_envAssign_ne t _ (n, x) q (Ne.symm hq)
  · have hf : ((n, x) :: B).filter scanned = B.filter scanned := by simp [hs]
    rw [hf]

theorem decodeStruct_of_agree (t : CaseTables) (rank : String → Nat) (m1 m2 : ConfMap) (c : CLI)
    (h : ∀ k : FieldId, ∀ key, EqualFold t key k.tag = true → m1.lookup key = m2.lookup key) :
    decodeStruct t rank m1 c = decodeStruct t rank m2 c :=
  decodeStruct_congr t rank m1 m2 c (fun k => findRaw_congr t rank m1 m2 k.tag (h k))

/-- Adding one more variable to the environment leaves the map read from it
unchanged outside the first part of the new key. -/
theorem lookup_envProviderRead_insert (w : World) (l1 l2 : List (String × String))
    (n x s1 : String)
    (hnew : ∀ e ∈ l1 ++ l2, e.1 ≠ n)
    (hfirst : (Split (envCallback w.tables n)).head? = some s1)
    (hother : ∀ e ∈ l1 ++ l2, scanned e = true → s1 ∉ Split (envCallback w.tables e.1))
    (q : String) (hq : q ≠ s1) :
    (envProviderRead { w with environ := l1 ++ (n, x) :: l2 }).lookup q
      = (envProviderRead { w with environ := l1 ++ l2 }).lookup q := by
  obtain ⟨rest1, hsplit⟩ : ∃ rest1, Split (envCallback w.tables n) = s1 :: rest1 := by
    cases hs : Split (envCallback w.tables n) with
    | nil => simp [hs] at hfirst
    | cons a as =>
      simp only [hs, List.head?_cons, Option.some.injEq] at hfirst
      exact ⟨as, by rw [hfirst]⟩
  have hparts : ∀ q, (envFlatMap w.tables (Environ (l1 ++ l2))).lookup q ≠ none →
      s1 ∉ Split q := by
    intro q hq
    unfold envFlatMap at hq
    rcases origin_foldl_envAssign w.tables q _ _ hq with h | ⟨e, he, hderive⟩
    · exact absurd rfl h
    · rw [List.mem_filter] at he
      rw [← hderive]
      exact hother e (mem_of_mem_Environ e _ he.1) he.2
  have hd : (envFlatMap w.tables (Environ (l1 ++ l2))).lookup (envCallback w.tables n)
      = none := by
    by_contra hne
    have := hparts _ hne
    rw [hsplit] at this
    exact this (List.mem_cons_self _ _)
  exact lookup_Unflatten_sim w.keyRank _ _ (envCallback w.tables n) s1 rest1 hsplit
    (fun p hp => envFlatMap_insert w.tables l1 l2 n x hnew p hp) hd hparts q hq

/-- Two worlds with the same file, iteration order and case tables, whose
environment maps agree on every key that matches a field, give the same result. -/
theorem InitCLIConfigAt_congr_env (w1 w2 : World) (path : String) (loadDefaults : Bool)
    (hfs : w1.fs (Clean path) = w2.fs (Clean path)) (hrank : w1.keyRank = w2.keyRank)
    (htab : w1.tables = w2.tables)
    (henv : ∀ k : FieldId, ∀ key, EqualFold w2.tables key k.tag = true →
      (envProviderRead w1).lookup key = (envProviderRead w2).lookup key) :
    InitCLIConfigAt w1 path loadDefaults = InitCLIConfigAt w2 path loadDefaults := by
  unfold InitCLIConfigAt confState
  rw [readConfigFile_congr w1 w2 path hfs, hrank, htab]
  cases (if path ≠ "" then (readConfigFile w2 path).map (fun mp => Merge mp .nil)
         else .ok .nil) with
  | error err => rfl
  | ok base =>
    simp only []
    rw [decodeStruct_of_agree w2.tables w2.keyRank (Merge (envProviderRead w1) base)
      (Merge (envProviderRead w2) base)]
    intro k key hfold
    rw [lookup_Merge key base _ (nodup_rawKeys_envProviderRead w1),
      lookup_Merge key base _ (nodup_rawKeys_envProviderRead w2), henv k key hfold]

theorem searchFilePaths_congr (w1 w2 : World) (paths : List String)
    (h : ∀ p, (w1.fs p).isSome = (w2.fs p).isSome) :
    searchFilePaths w1 paths = searchFilePaths w2 paths := by
  unfold searchFilePaths
  have : (fun p => (w1.fs p).isSome) = (fun p => (w2.fs p).isSome) := funext h
  rw [this]

theorem LookupEnv_insert_self (w : World) (l1 l2 : List (String × String)) (n x : String)
    (hnew : ∀ e ∈ l1 ++ l2, e.1 ≠ n) :
    LookupEnv { w with environ := l1 ++ (n, x) :: l2 } n = some x := by
  have h1 : l1.find? (fun e => decide (e.1 = n)) = none := by
    rw [List.find?_eq_none]
    intro e he
    simpa using hnew e (List.mem_append_left _ he)
  simp [LookupEnv, List.find?_append, h1]

theorem LookupEnv_of_not_set (w : World) (n : String) (hnew : ∀ e ∈ w.environ, e.1 ≠ n) :
    LookupEnv w n = none := by
  have h1 : w.environ.find? (fun e => decide (e.1 = n)) = none := by
    rw [List.find?_eq_none]
    intro e he
    simpa using hnew e he
  simp [LookupEnv, h1]

theorem equalFold_config_path (t : CaseTables) (k : FieldId) :
    EqualFold t "config_path" k.tag = false := by
  cases k <;> rfl

/-- C9 (as stated) fails. A file key `Host` is not one of the five schema keys,
yet the decoder matches keys without regard to case and the host becomes `x`.
The variable `RC3_CLI_HOST__X` derives the key `host__x`, parts `host` and
`x`, not a schema key either; it puts a table under `host` and the call fails. -/
theorem unbound_key_ignored_counterexample :
    (∀ k : FieldId, "Host" ≠ k.tag) ∧
    InitCLIConfig (mkWorld [] (some ("cfg.toml", .ofList []))) "cfg.toml" true
      = (some DefaultCLIConfig, none) ∧
    InitCLIConfig (mkWorld [] (some ("cfg.toml", .ofList [("Host", .str "x")]))) "cfg.toml" true
      = (some { DefaultCLIConfig with Host := "x" }, none) ∧
    Split (envCallback asciiTables "RC3_CLI_HOST__X") = ["host", "x"] ∧
    InitCLIConfig (mkWorld [] none) "" true = (some DefaultCLIConfig, none) ∧
    InitCLIConfig (mkWorld [("RC3_CLI_HOST__X", "1")] none) "" true
      = (none, some (.decode ["host"])) := by
  refine ⟨?_, by decide, by decide, by decide, by decide, by decide⟩
  intro k
  cases k <;> decide

/-- C9 (as amended): keys that bind no field are ignored, where binding is what
the loader does: it lower-cases with `strings.ToLower`, splits on `__` and
matches a field with `strings.EqualFold`.
File: assigning, in the parsed file, a key that `EqualFold` matches with none of
the five schema keys changes nothing of what `InitCLIConfig` returns.
Environment: adding a variable that was not set, the first `__` part of whose
derived key `EqualFold` matches with no schema key and is a part of the derived
key of no other `RC3_CLI_` variable, changes nothing of what the function
returns once the path is settled, and nothing at all when the variable is not
`RC3_CLI_CONFIG_PATH`.
`RC3_CLI_CONFIG_PATH` is such a variable, merged under `config_path`: when no
other variable has the part `config_path`, setting it to a path `P` makes the
call return what it returns without the variable once the path is settled on
`P`, and setting it to the empty string changes nothing; apart from selecting
the file it causes no error and sets no field. -/
theorem unbound_key_ignored :
    (∀ (w : World) (path : String) (fm : ConfMap) (q : String) (val : Value)
        (flagPath : String) (loadDefaults : Bool),
      w.fs path = some (.ok fm) →
      (∀ k : FieldId, EqualFold w.tables q k.tag = false) →
      InitCLIConfig { w with fs := fun p => if p = path then some (.ok (fm.set q val)) else w.fs p }
          flagPath loadDefaults
        = InitCLIConfig w flagPath loadDefaults) ∧
    (∀ (w : World) (l1 l2 : List (String × String)) (n x s1 : String) (loadDefaults : Bool),
      (∀ e ∈ l1 ++ l2, e.1 ≠ n) →
      (Split (envCallback w.tables n)).head? = some s1 →
      (∀ k : FieldId, EqualFold w.tables s1 k.tag = false) →
      (∀ e ∈ l1 ++ l2, scanned e = true → s1 ∉ Split (envCallback w.tables e.1)) →
      (∀ path, InitCLIConfigAt { w with environ := l1 ++ (n, x) :: l2 } path loadDefaults
          = InitCLIConfigAt { w with environ := l1 ++ l2 } path loadDefaults) ∧
      (n ≠ "RC3_CLI_CONFIG_PATH" → ∀ flagPath,
        InitCLIConfig { w with environ := l1 ++ (n, x) :: l2 } flagPath loadDefaults
          = InitCLIConfig { w with environ := l1 ++ l2 } flagPath loadDefaults)) ∧
    (∀ (w : World) (l1 l2 : List (String × String)) (P flagPath : String)
        (loadDefaults : Bool),
      (∀ e ∈ l1 ++ l2, e.1 ≠ "RC3_CLI_CONFIG_PATH") →
      (∀ e ∈ l1 ++ l2, scanned e = true →
        "config_path" ∉ Split (envCallback w.tables e.1)) →
      (P ≠ "" →
        InitCLIConfig { w with environ := l1 ++ ("RC3_CLI_CONFIG_PATH", P) :: l2 }
            flagPath loadDefaults
          = InitCLIConfigAt { w with environ := l1 ++ l2 } P loadDefaults) ∧
      (P = "" →
        InitCLIConfig { w with environ := l1 ++ ("RC3_CLI_CONFIG_PATH", P) :: l2 }
            flagPath loadDefaults
          = InitCLIConfig { w with environ := l1 ++ l2 } flagPath loadDefaults)) := by
  have henvpart : ∀ (w : World) (l1 l2 : List (String × String)) (n x s1 : String)
      (loadDefaults : Bool),
      (∀ e ∈ l1 ++ l2, e.1 ≠ n) →
      (Split (envCallback w.tables n)).head? = some s1 →
      (∀ k : FieldId, EqualFold w.tables s1 k.tag = false) →
      (∀ e ∈ l1 ++ l2, scanned e = true → s1 ∉ Split (envCallback w.tables e.1)) →
      ∀ path, InitCLIConfigAt { w with environ := l1 ++ (n, x) :: l2 } path loadDefaults
          = InitCLIConfigAt { w with environ := l1 ++ l2 } path loadDefaults := by
    intro w l1 l2 n x s1 loadDefaults hnew hfirst hkey hother path
    refine InitCLIConfigAt_congr_env { w with environ := l1 ++ (n, x) :: l2 }
      { w with environ := l1 ++ l2 } path loadDefaults rfl rfl rfl ?_
    intro k key hfold
    apply lookup_envProviderRead_insert w l1 l2 n x s1 hnew hfirst hother
    intro hks
    have hfold2 : EqualFold w.tables key k.tag = true := hfold
    rw [hks, hkey k] at hfold2
    simp at hfold2
  refine ⟨?_, ?_, ?_⟩
  · intro w path fm q val flagPath loadDefaults hfile hq
    have hsome : ∀ p, ((if p = path then some (.ok (fm.set q val)) else w.fs p :
        Option (Except GoError ConfMap))).isSome = (w.fs p).isSome := by
      intro p
      by_cases hp : p = path
      · simp [hp, hfile]
      · simp [hp]
    have hpath : resolvePath
        { w with fs := fun p => if p = path then some (.ok (fm.set q val)) else w.fs p } flagPath
        = resolvePath w flagPath := by
      unfold resolvePath
      rw [searchFilePaths_congr _ w _ hsome]
      rfl
    rw [InitCLIConfig_eq_at, InitCLIConfig_eq_at, hpath]
    generalize resolvePath w flagPath = rp
    unfold InitCLIConfigAt confState
    by_cases hrp : rp ≠ "" ∧ Clean rp = path
    · obtain ⟨hne, heq⟩ := hrp
      have hfile2 : w.fs (Clean rp) = some (.ok fm) := by rw [heq]; exact hfile
      simp only [ne_eq, hne, not_false_eq_true, if_true, readConfigFile, heq, hfile, Except.map]
      have hfold : decodeStruct w.tables w.keyRank
            (Merge (envProviderRead w) (Merge (fm.set q val) .nil))
            (if loadDefaults then DefaultCLIConfig else zeroCLI)
          = decodeStruct w.tables w.keyRank (Merge (envProviderRead w) (Merge fm .nil))
            (if loadDefaults then DefaultCLIConfig else zeroCLI) := by
        apply decodeStruct_of_agree
        intro k key hkey
        have hkq : key ≠ q := by
          intro hh
          rw [hh, hq k] at hkey
          simp at hkey
        exact lookup_Merge_right_congr key _ _
          (lookup_Merge_set_left q val .nil key hkq fm) _
      exact congrArg (fun r => match r with
        | (c, []) => ((some c, none) : Option CLI × Option GoError)
        | (_, e :: errs) => (none, some (.decode (e :: errs)))) hfold
    · have hread : rp ≠ "" → readConfigFile
          { w with fs := fun p => if p = path then some (.ok (fm.set q val)) else w.fs p } rp
          = readConfigFile w rp := by
        intro hne
        apply readConfigFile_congr
        have : Clean rp ≠ path := fun hh => hrp ⟨hne, hh⟩
        simp [this]
      by_cases hne : rp ≠ ""
      · simp only [hne, if_true, hread hne]
        rfl
      · simp only [hne, if_false]
        rfl
  · intro w l1 l2 n x s1 loadDefaults hnew hfirst hkey hother
    refine ⟨henvpart w l1 l2 n x s1 loadDefaults hnew hfirst hkey hother, ?_⟩
    intro hn flagPath
    have hpath : resolvePath { w with environ := l1 ++ (n, x) :: l2 } flagPath
        = resolvePath { w with environ := l1 ++ l2 } flagPath := by
      unfold resolvePath Getenv
      rw [LookupEnv_insert w l1 l2 n x "RC3_CLI_CONFIG_PATH" (Ne.symm hn)]
      rfl
    rw [InitCLIConfig_eq_at, InitCLIConfig_eq_at, hpath]
    exact henvpart w l1 l2 n x s1 loadDefaults hnew hfirst hkey hother _
  · intro w l1 l2 P flagPath loadDefaults hnew hother
    have hat := henvpart w l1 l2 "RC3_CLI_CONFIG_PATH" P "config_path" loadDefaults hnew rfl
      (equalFold_config_path w.tables) hother
    have hset := LookupEnv_insert_self w l1 l2 "RC3_CLI_CONFIG_PATH" P hnew
    constructor
    · intro hP
      rw [InitCLIConfig_eq_at, resolvePath_of_config_path _ flagPath P hP hset]
      exact hat P
    · intro hP
      have hnone : LookupEnv { w with environ := l1 ++ l2 } "RC3_CLI_CONFIG_PATH" = none :=
        LookupEnv_of_not_set _ _ hnew
      have hpath : resolvePath { w with environ := l1 ++ ("RC3_CLI_CONFIG_PATH", P) :: l2 }
          flagPath = resolvePath { w with environ := l1 ++ l2 } flagPath := by
        unfold resolvePath Getenv
        rw [hset, hnone, hP]
        rfl
      rw [InitCLIConfig_eq_at, InitCLIConfig_eq_at, hpath]
      exact hat _

/-- C9 (as amended) at a file that also sets `colour`, and at an environment
that also sets `RC3_CLI_CONFIG_PATH` to the path of that file: the call
returns what lines 63 to 86 return for that path without the variable. -/
theorem unbound_key_ignored_witness :
    InitCLIConfig
        { mkWorld [] (some ("cfg.toml", .ofList [("host", .str "h")])) with
          fs := fun p => if p = "cfg.toml"
            then some (.ok ((ConfMap.ofList [("host", .str "h")]).set "colour" (.str "red")))
            else (mkWorld [] (some ("cfg.toml", .ofList [("host", .str "h")]))).fs p }
        "cfg.toml" true
      = InitCLIConfig (mkWorld [] (some ("cfg.toml", .ofList [("host", .str "h")])))
          "cfg.toml" true ∧
    InitCLIConfig
        { mkWorld [] (some ("cfg.toml", .ofList [("host", .str "h")])) with
          environ := [("RC3_CLI_FORMAT", "json")] ++ ("RC3_CLI_CONFIG_PATH", "cfg.toml") :: [] }
        "" true
      = InitCLIConfigAt
          { mkWorld [] (some ("cfg.toml", .ofList [("host", .str "h")])) with
            environ := [("RC3_CLI_FORMAT", "json")] ++ [] }
          "cfg.toml" true ∧
    InitCLIConfigAt
        { mkWorld [] (some ("cfg.toml", .ofList [("host", .str "h")])) with
          environ := [("RC3_CLI_FORMAT", "json")] ++ [] }
        "cfg.toml" true
      = (some { DefaultCLIConfig with Host := "h", Format := "json" }, none) :=
  ⟨unbound_key_ignored.1 (mkWorld [] (some ("cfg.toml", .ofList [("host", .str "h")])))
      "cfg.toml" (.ofList [("host", .str "h")]) "colour" (.str "red") "cfg.toml" true rfl
      (by intro k; cases k <;> decide),
   (unbound_key_ignored.2.2 (mkWorld [] (some ("cfg.toml", .ofList [("host", .str "h")])))
      [("RC3_CLI_FORMAT", "json")] [] "cfg.toml" "" true (by decide) (by decide)).1 (by decide),
   by decide⟩

end RC3
